import Mathlib

/-!
Verification development for the Splunkbase download script
(src/splunkbase-download.py, final revision).

The script's effectful operations are embedded shallowly:

* JSON documents become the inductive `JValue` (the fragment the manifest
  uses: strings, integers, null, arrays, objects).
* The file system becomes a finite association of paths to file data
  (content plus an `st_mtime` at one-second resolution); writes, renames,
  deletions and `glob` are explicit functions on it.
* Exceptions become explicit outcome flags / `Except`-style results; points
  where the Python code can raise are driven by an injected fault value.
* Network interactions (the `requests` collaborator) become oracle
  parameters: the outcome of each remote call is an input of the function
  that performs it.

Definitions follow the corresponding Python functions line by line and keep
their names.
-/

namespace Splunkbase

/-- JSON values manipulated by the script. Floating point numbers and JSON
booleans do not occur in the manifest data the script processes and are
outside the embedding. -/
inductive JValue where
  | str (s : String)
  | int (n : Int)
  | null
  | list (xs : List JValue)
  | obj (kvs : List (String × JValue))
  deriving Repr

/-- A Python dict with string keys, as decoded from a JSON object. -/
abbrev JDict := List (String × JValue)

mutual

/-- Python `==` on JSON values (deep structural equality). -/
def jeqB : JValue → JValue → Bool
  | .str a, .str b => a == b
  | .int a, .int b => a == b
  | .null, .null => true
  | .list xs, .list ys => jeqListB xs ys
  | .obj xs, .obj ys => jeqObjB xs ys
  | _, _ => false

def jeqListB : List JValue → List JValue → Bool
  | [], [] => true
  | a :: as, b :: bs => jeqB a b && jeqListB as bs
  | _, _ => false

def jeqObjB : List (String × JValue) → List (String × JValue) → Bool
  | [], [] => true
  | (k1, v1) :: as, (k2, v2) :: bs => k1 == k2 && jeqB v1 v2 && jeqObjB as bs
  | _, _ => false

end

/-- Python `d.get(k) == v` with a non-None right operand. -/
def optJEq (o : Option JValue) (v : JValue) : Bool :=
  match o with
  | some w => jeqB w v
  | none => false

/-- Python `k in d` / `d[k]` access: the first binding of the key, when
present. (CPython dicts have unique keys; the model keeps the first.) -/
def dictGet (d : JDict) (k : String) : Option JValue :=
  (d.find? (fun e => e.fst == k)).map (fun e => e.snd)

/-- Python `d.get(k)`: a stored JSON null decodes to Python `None`, which is
exactly what `.get` returns for an absent key, so both cases collapse. -/
def getPy (d : JDict) (k : String) : Option JValue :=
  match dictGet d k with
  | some .null => none
  | some v => some v
  | none => none

/-- Python `d[k] = v`: replace the value of an existing key in place (key
order kept), otherwise append the new binding at the end. -/
def dictSet (d : JDict) (k : String) (v : JValue) : JDict :=
  match d with
  | [] => [(k, v)]
  | (k0, v0) :: rest =>
    if k0 == k then (k0, v) :: rest else (k0, v0) :: dictSet rest k v

/-- Rendering used where the script interpolates a value into an f-string
(log lines, the `skipped_apps` entries, sort keys). For strings and integers
it matches Python `str`; containers are abstracted, no claim depends on
their rendering. -/
def strOf : JValue → String
  | .str s => s
  | .int n => toString n
  | .null => "None"
  | .list _ => "<list>"
  | .obj _ => "<dict>"

/-- Python `str` of an `Optional` value (`None` renders as "None"). -/
def strOfOpt : Option JValue → String
  | none => "None"
  | some v => strOf v

mutual

/-- Serialization standing for `json.dump(data, ...)`. The claims only
compare serialized output for equality with other serialized output, so the
concrete rendering (indentation, escaping) is immaterial; what matters is
that every write path serializes through this one function. -/
def jser : JValue → String
  | .str s => "\"" ++ s ++ "\""
  | .int n => toString n
  | .null => "null"
  | .list xs => "[" ++ jserList xs ++ "]"
  | .obj kvs => "\x7b" ++ jserObj kvs ++ "\x7d"

def jserList : List JValue → String
  | [] => ""
  | [x] => jser x
  | x :: y :: rest => jser x ++ ", " ++ jserList (y :: rest)

def jserObj : List (String × JValue) → String
  | [] => ""
  | [(k, v)] => "\"" ++ k ++ "\": " ++ jser v
  | (k, v) :: e :: rest => "\"" ++ k ++ "\": " ++ jser v ++ ", " ++ jserObj (e :: rest)

end

/-- The manifest list as the JSON document the script serializes. -/
def jOfApps (apps : List JDict) : JValue :=
  .list (apps.map .obj)

/-! ## Digit rendering -/

/-- Decimal digit character. -/
def dChar (d : Nat) : Char := Char.ofNat (48 + d)

/-- Fixed-width decimal rendering, most significant digit first. -/
def padChars : Nat → Nat → List Char
  | 0, _ => []
  | n + 1, v => dChar (v / 10 ^ n % 10) :: padChars n (v % 10 ^ n)

/-! ## Python str.strip -/

/-- Whitespace characters removed by Python `str.strip()` (the ASCII ones;
the script's data never carries the exotic unicode spaces). -/
def isWsCh (c : Char) : Bool :=
  c == ' ' || c == '\t' || c == '\n' || c == '\r' || c == '\x0b' || c == '\x0c'

/-- Strip on character lists: drop whitespace from both ends. -/
def stripChars (l : List Char) : List Char :=
  ((l.dropWhile isWsCh).reverse.dropWhile isWsCh).reverse

/-- Python `s.strip()`. -/
def pstrip (s : String) : String :=
  String.mk (stripChars s.data)

/-! ## Timestamps: datetime.fromisoformat / datetime.isoformat

An aware `datetime` value is calendar fields plus a UTC offset in whole
minutes (the offsets the script produces and consumes are whole minutes).
`parseDT` models `datetime.fromisoformat` on the grammar relevant here:
`YYYY-MM-DDTHH:MM:SS[.ffffff]±HH:MM`, with calendar range checks; an input
without a UTC offset (a naive datetime) and a malformed input both make
`parseDT` fail, which is exactly how `_normalize_iso8601` treats the two
cases (it returns the original string either way). `fmtDTChars` models
`datetime.isoformat` of an aware value. -/

structure DT where
  year : Nat
  month : Nat
  day : Nat
  hour : Nat
  minute : Nat
  second : Nat
  micro : Nat
  off : Int
  deriving Repr, DecidableEq

def isDigitCh (c : Char) : Bool :=
  48 ≤ c.toNat && c.toNat ≤ 57

def digVal (c : Char) : Nat := c.toNat - 48

/-- Read exactly `n` decimal digits, accumulating their value. -/
def readNat : Nat → Nat → List Char → Option (Nat × List Char)
  | 0, acc, cs => some (acc, cs)
  | _ + 1, _, [] => none
  | n + 1, acc, c :: cs =>
    if isDigitCh c then readNat n (acc * 10 + digVal c) cs else none

def expectCh (c : Char) : List Char → Option (List Char)
  | [] => none
  | x :: xs => if x == c then some xs else none

/-- Optional fractional-seconds part: a dot followed by six digits
(the width `datetime.isoformat` emits). -/
def parseFrac : List Char → Option (Nat × List Char)
  | '.' :: cs => readNat 6 0 cs
  | cs => some (0, cs)

/-- UTC offset `±HH:MM`, in minutes; `datetime.timezone` rejects minute
parts over 59 and offsets of 24 h or more. -/
def parseOff (cs : List Char) : Option (Int × List Char) :=
  match cs with
  | sign :: rest =>
    if sign == '+' || sign == '-' then
      match readNat 2 0 rest with
      | some (h, rest1) =>
        match expectCh ':' rest1 with
        | some rest2 =>
          match readNat 2 0 rest2 with
          | some (m, rest3) =>
            if h ≤ 23 && m ≤ 59 then
              some (if sign == '+' then ((h * 60 + m : Nat) : Int)
                else -((h * 60 + m : Nat) : Int), rest3)
            else none
          | none => none
        | none => none
      | none => none
    else none
  | [] => none

def isLeap (y : Nat) : Bool :=
  (y % 4 == 0 && y % 100 != 0) || y % 400 == 0

def daysInMonth (y m : Nat) : Nat :=
  if m == 2 then (if isLeap y then 29 else 28)
  else if m == 4 || m == 6 || m == 9 || m == 11 then 30
  else 31

/-- Range checks `datetime` enforces (MINYEAR 1, real calendar days; the
offset range is enforced in `parseOff`). -/
def dtValid (d : DT) : Bool :=
  1 ≤ d.year && d.year ≤ 9999 &&
  1 ≤ d.month && d.month ≤ 12 &&
  1 ≤ d.day && d.day ≤ daysInMonth d.year d.month &&
  d.hour ≤ 23 && d.minute ≤ 59 && d.second ≤ 59 && d.micro ≤ 999999

def parseDT (cs : List Char) : Option DT := do
  let (y, cs) ← readNat 4 0 cs
  let cs ← expectCh '-' cs
  let (mo, cs) ← readNat 2 0 cs
  let cs ← expectCh '-' cs
  let (da, cs) ← readNat 2 0 cs
  let cs ← expectCh 'T' cs
  let (h, cs) ← readNat 2 0 cs
  let cs ← expectCh ':' cs
  let (mi, cs) ← readNat 2 0 cs
  let cs ← expectCh ':' cs
  let (s, cs) ← readNat 2 0 cs
  let (us, cs) ← parseFrac cs
  let (off, cs) ← parseOff cs
  let d : DT := ⟨y, mo, da, h, mi, s, us, off⟩
  if cs.isEmpty && dtValid d then some d else none

/-- datetime.isoformat of an aware value: fractional seconds printed (six
digits) only when nonzero, offset as `±HH:MM` (`+00:00` for UTC). -/
def fmtDTChars (d : DT) : List Char :=
  padChars 4 d.year ++ '-' :: padChars 2 d.month ++ '-' :: padChars 2 d.day ++
  'T' :: padChars 2 d.hour ++ ':' :: padChars 2 d.minute ++ ':' :: padChars 2 d.second ++
  (if d.micro == 0 then [] else '.' :: padChars 6 d.micro) ++
  (if 0 ≤ d.off then '+' :: (padChars 2 (d.off.natAbs / 60) ++ ':' :: padChars 2 (d.off.natAbs % 60))
   else '-' :: (padChars 2 (d.off.natAbs / 60) ++ ':' :: padChars 2 (d.off.natAbs % 60)))

/-- Translate a trailing `Z` into `+00:00` as `_normalize_iso8601` does
before calling `fromisoformat`. -/
def zTranslate (cs : List Char) : List Char :=
  if cs.getLast? == some 'Z' then cs.dropLast ++ ['+', '0', '0', ':', '0', '0'] else cs

/-- _normalize_iso8601(ts): strip, translate a trailing Z, parse; on an
unparseable or naive timestamp return `(false, ts)` with the original
string, else `(true, dt.isoformat())`. -/
def _normalize_iso8601 (ts : String) : Bool × String :=
  let s := stripChars ts.data
  match parseDT (zTranslate s) with
  | none => (false, ts)
  | some d => (true, String.mk (fmtDTChars d))

/-- _is_iso8601_with_tz(ts). -/
def _is_iso8601_with_tz (ts : String) : Bool :=
  (_normalize_iso8601 ts).fst

/-! ## File system model -/

/-- Content and modification time of one file. -/
structure FileData where
  content : String
  mtime : Nat
  deriving Repr, DecidableEq

/-- A file system: association of paths to file data, unique paths. -/
abbrev FS := List (String × FileData)

def fsLookup (fs : FS) (p : String) : Option FileData :=
  (fs.find? (fun e => e.fst == p)).map (fun e => e.snd)

def fsContent (fs : FS) (p : String) : Option String :=
  (fsLookup fs p).map (fun d => d.content)

def fsExists (fs : FS) (p : String) : Bool :=
  (fsLookup fs p).isSome

/-- Create or overwrite a file, setting its mtime. -/
def fsWrite (fs : FS) (p : String) (c : String) (t : Nat) : FS :=
  (p, ⟨c, t⟩) :: fs.filter (fun e => e.fst != p)

/-- Delete a file (no-op when absent, like `unlink(missing_ok=True)`). -/
def fsRemove (fs : FS) (p : String) : FS :=
  fs.filter (fun e => e.fst != p)

/-- Leading-match test on character lists. -/
def leadsChars : List Char → List Char → Bool
  | [], _ => true
  | _ :: _, [] => false
  | a :: as, b :: bs => a == b && leadsChars as bs

/-- Leading-match test on strings; `strLeads p s` holds when `s` starts with
`p`. Models the glob pattern `name.bak-*` of `rotate_backups`. -/
def strLeads (p s : String) : Bool :=
  leadsChars p.data s.data

/-- Backup-name timestamp: models `strftime("%Y%m%d-%H%M%S")` as a fixed
14-character injective rendering of the wall-clock second. -/
def tsName (now : Nat) : String :=
  String.mk (padChars 14 now)

/-! ## create_backup / rotate_backups -/

/-- Failure injection for the manifest write path: where, if anywhere, the
corresponding Python step raises. -/
inductive WFault where
  | fnone
  | backupCopy   -- shutil.copy2 raises inside create_backup (caught there)
  | tmpWrite     -- exception while writing / fsyncing the temporary file
  | replace      -- Path.replace raises; rename atomicity leaves the target unchanged
  deriving Repr, DecidableEq

/-- rotate_backups(file_path, keep_count): delete backup files beyond the
`keep` newest, ordering by st_mtime, newest first (`sorted` is stable). -/
def rotate_backups (fs : FS) (target : String) (keep : Nat) : FS :=
  let lead := target ++ ".bak-"
  let backs := fs.filter (fun e => strLeads lead e.fst)
  let sortedBacks := List.insertionSort (fun a b : String × FileData => b.snd.mtime ≤ a.snd.mtime) backs
  (sortedBacks.drop keep).foldl (fun acc e => fsRemove acc e.fst) fs

/-- create_backup(file_path, backup_keep): timestamped copy of the file next
to it, then rotation. A copy failure is caught and logged, leaving the file
system as it was; backup_keep = 0 disables backups. `shutil.copy2` preserves
the source st_mtime, while the name carries the current time `now`. -/
def create_backup (fs : FS) (target : String) (keep : Nat) (now : Nat)
    (fault : WFault) : FS :=
  if keep == 0 then fs
  else
    match fsLookup fs target with
    | none => fs
    | some fd =>
      if fault == .backupCopy then fs
      else
        let bpath := target ++ ".bak-" ++ tsName now
        let fs1 := fsWrite fs bpath fd.content fd.mtime
        rotate_backups fs1 target keep

/-! ## atomic_write_json / update_Your_apps_file_atomic -/

/-- Result of a manifest write: the file system afterwards, and whether the
call returned normally (`ok = false` means the exception propagated to the
caller after cleanup). -/
structure WriteOut where
  fs : FS
  ok : Bool
  deriving Repr, DecidableEq

/-- atomic_write_json(file_path, data, backup_keep): backup (unless
disabled), serialize to a fresh temporary file (`tmp`, created by mkstemp in
the same directory), fsync, then one atomic replace onto `target`. On an
exception in the write or replace step the temporary file is unlinked and
the exception propagates. This variant appends a trailing newline to the
serialized document. -/
def atomic_write_json (fs : FS) (target tmp : String) (data : JValue)
    (keep : Nat) (now : Nat) (fault : WFault) : WriteOut :=
  let fs0 := if keep != 0 then create_backup fs target keep now fault else fs
  let fs1 := fsWrite fs0 tmp "" now
  match fault with
  | .tmpWrite => { fs := fsRemove fs1 tmp, ok := false }
  | .replace =>
    { fs := fsRemove (fsWrite fs1 tmp (jser data ++ "\n") now) tmp, ok := false }
  | _ =>
    let fs2 := fsWrite fs1 tmp (jser data ++ "\n") now
    { fs := fsWrite (fsRemove fs2 tmp) target (jser data ++ "\n") now, ok := true }

/-- In-memory part of update_Your_apps_file_atomic: set `version` and
`updated_time` on the first record whose `uid` value equals `uid`; when no
record matches, append `{"uid": uid, "version": ..., "updated_time": ...}`. -/
def upsertApps (apps : List JDict) (uid : JValue) (newVersion updatedTime : String) :
    List JDict :=
  match apps with
  | [] => [[("uid", uid), ("version", .str newVersion), ("updated_time", .str updatedTime)]]
  | d :: rest =>
    if optJEq (getPy d "uid") uid then
      dictSet (dictSet d "version" (.str newVersion)) "updated_time" (.str updatedTime) :: rest
    else
      d :: upsertApps rest uid newVersion updatedTime

/-- Result of update_Your_apps_file_atomic: mutated in-memory list, file
system, and normal/exceptional termination. -/
structure UpdateOut where
  apps : List JDict
  fs : FS
  ok : Bool
  deriving Repr

/-- update_Your_apps_file_atomic(apps_data, uid, new_version, updated_time,
file_path, backup_keep): mutate the record in memory, then persist via the
same backup / temp-file / atomic-replace sequence as `atomic_write_json`
(this variant writes no trailing newline). On failure the temporary file is
removed and the exception propagates; the in-memory mutation has already
happened. -/
def update_Your_apps_file_atomic (apps : List JDict) (uid : JValue)
    (newVersion updatedTime : String) (fs : FS) (target tmp : String)
    (keep : Nat) (now : Nat) (fault : WFault) : UpdateOut :=
  let apps2 := upsertApps apps uid newVersion updatedTime
  let doc := jser (jOfApps apps2)
  let fs0 := if keep != 0 then create_backup fs target keep now fault else fs
  let fs1 := fsWrite fs0 tmp "" now
  match fault with
  | .tmpWrite => { apps := apps2, fs := fsRemove fs1 tmp, ok := false }
  | .replace =>
    { apps := apps2, fs := fsRemove (fsWrite fs1 tmp doc now) tmp, ok := false }
  | _ =>
    let fs2 := fsWrite fs1 tmp doc now
    { apps := apps2, fs := fsWrite (fsRemove fs2 tmp) target doc now, ok := true }

/-! ## validate_apps_data -/

/-- Matcher for the version pattern
`^\d+\.\d+(?:\.\d+)?(?:[.-][A-Za-z0-9]+)?$` (with the regex engine's
backtracking over the optional `\.\d+` group). -/
def isAlnumCh (c : Char) : Bool :=
  isDigitCh c || (65 ≤ c.toNat && c.toNat ≤ 90) || (97 ≤ c.toNat && c.toNat ≤ 122)

/-- Tail matcher for `(?:[.-][A-Za-z0-9]+)?$`. -/
def verTail2 : List Char → Bool
  | [] => true
  | c :: rest => (c == '.' || c == '-') && !rest.isEmpty && rest.all isAlnumCh

/-- Tail matcher for `(?:\.\d+)?(?:[.-][A-Za-z0-9]+)?$`: either skip the
first group, or let it take the maximal digit run after the dot (a shorter
run would leave a digit where only `[.-]` or the end may follow). -/
def verTail1 (cs : List Char) : Bool :=
  verTail2 cs ||
  (match cs with
   | '.' :: rest =>
     !(rest.takeWhile isDigitCh).isEmpty && verTail2 (rest.dropWhile isDigitCh)
   | _ => false)

/-- version_re.match(v) as a whole-string test. -/
def version_re_match (s : String) : Bool :=
  let cs := s.data
  let d1 := cs.takeWhile isDigitCh
  let r1 := cs.dropWhile isDigitCh
  match r1 with
  | '.' :: r2 =>
    !d1.isEmpty && !(r2.takeWhile isDigitCh).isEmpty && verTail1 (r2.dropWhile isDigitCh)
  | _ => false

/-- One per-record validation result: index, uid (the record's uid value
when the record is a dict), issue strings, and status. -/
structure VRes where
  index : Option Nat
  uid : Option JValue
  issues : List String
  status : String
  deriving Repr

/-- Python `"k" in app` on the raw dict. -/
def hasKey (d : JDict) (k : String) : Bool :=
  (dictGet d k).isSome

/-- Missing-required-fields issue (`ERR` when any of the five is absent). -/
def issMissing (app : JDict) : List String × Nat :=
  let missing := ["uid", "version", "name", "appid", "updated_time"].filter
    (fun k => !hasKey app k)
  if !missing.isEmpty then
    (["ERR: Missing required fields: " ++ String.intercalate ", " missing], 1)
  else ([], 0)

/-- Type issue for uid (`isinstance(app["uid"], int)`). -/
def issUidType (app : JDict) : List String × Nat :=
  if hasKey app "uid" &&
      (match dictGet app "uid" with | some (.int _) => false | _ => true) then
    (["ERR: uid must be an integer"], 1)
  else ([], 0)

/-- Type issue for version. -/
def issVerType (app : JDict) : List String × Nat :=
  if hasKey app "version" &&
      (match dictGet app "version" with | some (.str _) => false | _ => true) then
    (["ERR: version must be a string"], 1)
  else ([], 0)

/-- Type issue for name. -/
def issNameType (app : JDict) : List String × Nat :=
  if hasKey app "name" &&
      (match dictGet app "name" with | some (.str _) => false | _ => true) then
    (["ERR: name must be a string"], 1)
  else ([], 0)

/-- Type issue for appid. -/
def issAppidType (app : JDict) : List String × Nat :=
  if hasKey app "appid" &&
      (match dictGet app "appid" with | some (.str _) => false | _ => true) then
    (["ERR: appid must be a string"], 1)
  else ([], 0)

/-- updated_time must be a timezone-aware ISO-8601 string. -/
def issUpdatedTime (app : JDict) : List String × Nat :=
  if hasKey app "updated_time" &&
      (match getPy app "updated_time" with
       | some (.str s) => !_is_iso8601_with_tz s
       | _ => true) then
    (["ERR: updated_time must be ISO8601 with timezone, e.g. 2025-11-03T07:40:11+00:00"], 1)
  else ([], 0)

/-- Content checks on a string version: empty is an error, an unusual shape
a warning. -/
def issVerContent (app : JDict) : List String × Nat × Nat :=
  match getPy app "version" with
  | some (.str v) =>
    let vv := pstrip v
    if vv == "" then (["ERR: version must not be empty"], 1, 0)
    else if !version_re_match vv then
      (["WARN: version format is unusual; expected like 1.2 or 1.2.3 or 1.2.3-rc1"], 0, 1)
    else ([], 0, 0)
  | _ => ([], 0, 0)

/-- Warning for an empty name. -/
def issNameEmpty (app : JDict) : List String × Nat :=
  match getPy app "name" with
  | some (.str s) => if pstrip s == "" then (["WARN: name is empty"], 1) else ([], 0)
  | _ => ([], 0)

/-- Warning for an empty appid. -/
def issAppidEmpty (app : JDict) : List String × Nat :=
  match getPy app "appid" with
  | some (.str s) => if pstrip s == "" then (["WARN: appid is empty"], 1) else ([], 0)
  | _ => ([], 0)

/-- Duplicate-uid issue, threading the first-seen map. -/
def issDup (app : JDict) (idx : Nat) (seen : List (Int × Nat)) :
    List String × Nat × List (Int × Nat) :=
  match getPy app "uid" with
  | some (.int u) =>
    match seen.lookup u with
    | some i0 => (["ERR: duplicate uid (also in index " ++ toString i0 ++ ")"], 1, seen)
    | none => ([], 0, seen ++ [(u, idx)])
  | _ => ([], 0, seen)

/-- Check of one manifest entry, mirroring the body of the `for idx, app in
enumerate(apps_data)` loop. Returns the record result, its contribution to
the aggregate error and warning counters (the code adds local errors when
present, else local warnings), and the updated first-seen uid map. -/
def validateEntry (idx : Nat) (item : JValue) (seen : List (Int × Nat)) :
    VRes × Nat × Nat × List (Int × Nat) :=
  match item with
  | .obj app =>
    let i1 := issMissing app
    let i2 := issUidType app
    let i3 := issVerType app
    let i4 := issNameType app
    let i5 := issAppidType app
    let i6 := issUpdatedTime app
    let i7 := issVerContent app
    let i8 := issNameEmpty app
    let i9 := issAppidEmpty app
    let dup := issDup app idx seen
    let issues :=
      i1.fst ++ i2.fst ++ i3.fst ++ i4.fst ++ i5.fst ++ i6.fst ++
      i7.fst ++ i8.fst ++ i9.fst ++ dup.fst
    let errLoc := i1.snd + i2.snd + i3.snd + i4.snd + i5.snd + i6.snd +
      i7.snd.fst + dup.snd.fst
    let warnLoc := i7.snd.snd + i8.snd + i9.snd
    let status :=
      if !issues.isEmpty then
        (if errLoc > 0 then "invalid" else if warnLoc > 0 then "warning" else "valid")
      else "valid"
    let eAdd := if !issues.isEmpty && errLoc > 0 then errLoc else 0
    let wAdd := if !issues.isEmpty && errLoc == 0 && warnLoc > 0 then warnLoc else 0
    (⟨some idx, getPy app "uid", issues, status⟩, eAdd, wAdd, dup.snd.snd)
  | _ =>
    -- a non-dict entry: one issue, but neither local counter moves, so the
    -- status stays "valid" and the aggregates are untouched
    (⟨some idx, none, ["Entry is not an object/dict"], "valid"⟩, 0, 0, seen)

/-- The validation loop over the list, threading the first-seen uid map. -/
def validateList : List JValue → Nat → List (Int × Nat) → List VRes × Nat × Nat
  | [], _, _ => ([], 0, 0)
  | x :: xs, idx, seen =>
    let r := validateEntry idx x seen
    let rest := validateList xs (idx + 1) r.snd.snd.snd
    (r.fst :: rest.fst, r.snd.fst + rest.snd.fst, r.snd.snd.fst + rest.snd.snd)

/-- validate_apps_data(apps_data); the `Except` layer carries a Python
exception. No statement in the function's body can raise (every subscript
is guarded by an `isinstance` or containment test), so no code path
produces `.error`; a non-list document is answered with a single structural
`invalid` result and counts (1, 0). -/
def validate_apps_data (v : JValue) : Except String (List VRes × Nat × Nat) :=
  match v with
  | .list xs => .ok (validateList xs 0 [])
  | _ => .ok ([⟨none, none, ["Top-level JSON must be a list"], "invalid"⟩], 1, 0)

/-! ## format_apps_for_readability -/

/-- Trim a value when it is a string, as the normalization loop does. -/
def stripVal : JValue → JValue
  | .str s => .str (pstrip s)
  | v => v

/-- Key order of the canonical rendering. -/
def keyOrderList : List String := ["name", "uid", "appid", "updated_time", "version"]

/-- The ordering `sorted(extras.keys())` induces on the extra bindings. -/
def extraLe (a b : String × JValue) : Prop :=
  a.fst ≤ b.fst

instance : DecidableRel extraLe :=
  fun a b => inferInstanceAs (Decidable (a.fst ≤ b.fst))

instance : IsTotal (String × JValue) extraLe :=
  ⟨fun a b => le_total a.fst b.fst⟩

instance : IsTrans (String × JValue) extraLe :=
  ⟨fun _ _ _ h1 h2 => le_trans h1 h2⟩

/-- The `for k in app.keys()` loop: trim every string value. -/
def stripEntries (app : JDict) : JDict :=
  app.map (fun e => (e.fst, stripVal e.snd))

/-- The timestamp step: when `updated_time` holds a string that normalizes,
store the normalized form. -/
def normTimestamp (n : JDict) : JDict :=
  match dictGet n "updated_time" with
  | some (.str s) =>
    let r := _normalize_iso8601 s
    if r.fst then dictSet n "updated_time" (.str r.snd) else n
  | _ => n

/-- Rebuild the dict: the canonical keys in `key_order` first, then the
extra keys sorted. -/
def rebuildEntry (n2 : JDict) : JDict :=
  keyOrderList.filterMap (fun k => (dictGet n2 k).map (fun v => (k, v))) ++
    List.insertionSort extraLe (n2.filter (fun e => !keyOrderList.contains e.fst))

/-- Per-entry normalization of format_apps_for_readability: trim string
fields, normalize `updated_time` when parseable, then rebuild the dict with
the canonical key order followed by the extra keys sorted. -/
def reformatEntry (app : JDict) : JDict :=
  rebuildEntry (normTimestamp (stripEntries app))

/-- Sort key `str(x.get("name", "")).lower()`: a JSON null name renders as
"None" (Python `.get` with a default returns the stored None), an absent
name as the default empty string. -/
def nameKeyL (d : JDict) : String :=
  match dictGet d "name" with
  | none => ""
  | some .null => String.map Char.toLower "None"
  | some v => String.map Char.toLower (strOf v)

/-- Sort key `int(x.get("uid", 0)) if isinstance(x.get("uid"), int) else 0`. -/
def uidKey (d : JDict) : Int :=
  match getPy d "uid" with
  | some (.int n) => n
  | _ => 0

/-- Decimal value of a digit run. -/
def readDec (ds : List Char) : Int :=
  ds.foldl (fun acc c => acc * 10 + (digVal c : Int)) 0

/-- Python `int(value)` for the uid-sort key: succeeds on integers and on
strings that strip to an optionally signed digit run, raises otherwise. -/
def pyIntConv : Option JValue → Option Int
  | none => some 0
  | some (.int n) => some n
  | some (.str s) =>
    let cs := stripChars s.data
    match cs with
    | '+' :: ds => if !ds.isEmpty && ds.all isDigitCh then some (readDec ds) else none
    | '-' :: ds => if !ds.isEmpty && ds.all isDigitCh then some (-(readDec ds)) else none
    | ds => if !ds.isEmpty && ds.all isDigitCh then some (readDec ds) else none
  | some _ => none

/-- The record sort key for the default name ordering (tuple comparison is
lexicographic). -/
def entKeyName (d : JDict) : Lex (String × Int) :=
  toLex (nameKeyL d, uidKey d)

/-- The record sort key for the uid ordering. -/
def entKeyUid (d : JDict) : Lex (Int × String) :=
  toLex ((pyIntConv (getPy d "uid")).getD 0, nameKeyL d)

/-- Comparison by a key into a linear order — Python `list.sort(key=f)`. -/
def keyLe {β : Type} [LinearOrder β] (f : JDict → β) (a b : JDict) : Prop :=
  f a ≤ f b

instance {β : Type} [LinearOrder β] (f : JDict → β) : DecidableRel (keyLe f) :=
  fun a b => inferInstanceAs (Decidable (f a ≤ f b))

instance {β : Type} [LinearOrder β] (f : JDict → β) : IsTotal JDict (keyLe f) :=
  ⟨fun a b => le_total (f a) (f b)⟩

instance {β : Type} [LinearOrder β] (f : JDict → β) : IsTrans JDict (keyLe f) :=
  ⟨fun _ _ _ h1 h2 => le_trans h1 h2⟩

/-- format_apps_for_readability(apps_data, sort_by): normalize each entry,
then sort. For `sort_by="uid"` CPython first materializes all keys, so a
single inconvertible uid aborts the sort before reordering anything and the
`except` falls back to the name-only ordering. The model takes the entries
as dicts (on a non-dict entry the Python sort key raises `AttributeError`,
which propagates out of the function). -/
def format_apps_for_readability (apps : List JDict) (sortBy : String) : List JDict :=
  let ordered := apps.map reformatEntry
  if sortBy == "uid" then
    if ordered.all (fun d => (pyIntConv (getPy d "uid")).isSome) then
      List.insertionSort (keyLe entKeyUid) ordered
    else
      List.insertionSort (keyLe (fun d => nameKeyL d)) ordered
  else
    List.insertionSort (keyLe entKeyName) ordered

/-! ## download_stream -/

/-- Outcome of the one remote call of download_stream: the request fails
outright (requests.RequestException from `session.get`), the server replies
with a status plus a streamed body and an optional Last-Modified header, or
the connection dies after part of the body was written to disk
(RequestException from `iter_content`). -/
inductive RemoteResult where
  | netError
  | reply (status : Nat) (chunks : List String) (lastModified : Option String)
  | midStream (written : String)
  deriving Repr, DecidableEq

/-- Result of download_stream: file system afterwards, returned
updated_time (`none` both on failure and on the already-present skip),
names appended to `downloaded_apps` and `skipped_apps`, and whether
`session.get` was invoked at all. -/
structure DlOut where
  fs : FS
  ret : Option String
  downloaded : List String
  skipped : List String
  network : Bool
  deriving Repr, DecidableEq

/-- Target file name `{app_id}_{app_version}.tgz`. -/
def tgzName (uidStr ver : String) : String :=
  uidStr ++ "_" ++ ver ++ ".tgz"

/-- expected_file_path(out_dir, uid, version). -/
def expected_file_path (outDir uidStr ver : String) : String :=
  outDir ++ "/" ++ tgzName uidStr ver

/-- download_stream(app_id, app_version, ...): skip when the target already
exists; otherwise stream the body to the target path. A non-200 status
returns before the file is ever opened. A transport failure mid-stream
unlinks the partial file. On success the returned updated_time comes from
the Last-Modified header (`lmParse` stands for parsedate_to_datetime plus
UTC conversion) with the current UTC instant `nowIso` as fallback. -/
def download_stream (fs : FS) (outDir uidStr ver : String) (remote : RemoteResult)
    (lmParse : String → Option String) (nowIso : String) (now : Nat) : DlOut :=
  let fname := tgzName uidStr ver
  let fpath := outDir ++ "/" ++ fname
  if fsExists fs fpath then
    { fs := fs, ret := none, downloaded := [], skipped := [fname], network := false }
  else
    match remote with
    | .netError =>
      { fs := fs, ret := none, downloaded := [], skipped := [], network := true }
    | .midStream written =>
      { fs := fsRemove (fsWrite fs fpath written now) fpath, ret := none,
        downloaded := [], skipped := [], network := true }
    | .reply status chunks lm =>
      if status != 200 then
        { fs := fs, ret := none, downloaded := [], skipped := [], network := true }
      else
        let fs2 := fsWrite fs fpath (String.join chunks) now
        let ut :=
          match lm with
          | some s =>
            match lmParse s with
            | some iso => iso
            | none => nowIso
          | none => nowIso
        { fs := fs2, ret := some ut, downloaded := [fname], skipped := [], network := true }

/-! ## The decision loop of `__main__`

The per-record loop (normal/download flow). The remote collaborator is an
oracle in `Env`: `latest uid` is the value `get_latest_version_safe`
returns for that uid (`none` covering a non-200 status, malformed JSON, a
non-list body, a missing "name" key, or a network error), and `remote uid
version` drives the one download that `download_stream` would perform.
The model fixes `--hash` off (the hash field never appears in any claim)
and tracks the manifest through the in-memory `apps` list; persistence of
each commit is the subject of the separate `update_Your_apps_file_atomic`
model, which shares `upsertApps` with this loop. -/

/-- One row of `eval_results` as built by create_eval_result. -/
structure EvalResult where
  uid : JValue
  current : Option JValue
  latest : Option String
  action : String
  reason : String
  filePresent : Option Bool
  filePath : Option String
  deriving Repr

/-- Run configuration and remote oracle. -/
structure Env where
  latest : JValue → Option String
  remote : JValue → String → RemoteResult
  lmParse : String → Option String
  nowIso : String
  now : Nat
  outDir : String
  dryRun : Bool
  fixMissing : Bool
  onlyUids : Option (List Int)
  excludeUids : Option (List Int)

/-- Mutable state of the loop. -/
structure St where
  apps : List JDict
  fs : FS
  evalResults : List EvalResult
  downloaded : List String
  skipped : List String
  total : Nat
  toUpdate : Nat
  upToDate : Nat
  errors : Nat
  missingFiles : Nat
  deriving Repr

/-- Python `uid in only_uids` for a set of integers. -/
def uidInSet (u : JValue) (s : List Int) : Bool :=
  match u with
  | .int n => s.contains n
  | _ => false

/-- The "Phase 2" presence check: defined (as a presence flag and the
expected path) only when the uid is an integer and the declared version a
string. -/
def fpCheck (outDir : String) (fs : FS) (uid : JValue) (current : Option JValue) :
    Option (Bool × String) :=
  match uid, current with
  | .int n, some (.str cv) =>
    let p := expected_file_path outDir (strOf (.int n)) cv
    some (fsExists fs p, p)
  | _, _ => none

/-- `if not latest_version:` — None and the empty string both mean
"unavailable". -/
def latestEffective (env : Env) (uid : JValue) : Option String :=
  match env.latest uid with
  | some s => if s == "" then none else some s
  | none => none

/-- Body of `for app in apps_data:` for one record. -/
def processOne (env : Env) (st : St) (app : JDict) : St :=
  match getPy app "uid" with
  | none => st
  | some uid =>
    if (match env.onlyUids with | some s => !uidInSet uid s | none => false) then st
    else if (match env.excludeUids with | some s => uidInSet uid s | none => false) then st
    else
      let st1 := { st with total := st.total + 1 }
      let current := getPy app "version"
      let fpInfo := fpCheck env.outDir st1.fs uid current
      let filePresent := fpInfo.map (fun e => e.fst)
      let filePath := fpInfo.map (fun e => e.snd)
      let st2 :=
        match fpInfo with
        | some (false, _) => { st1 with missingFiles := st1.missingFiles + 1 }
        | _ => st1
      match latestEffective env uid with
      | none =>
        { st2 with
          evalResults := st2.evalResults ++
            [⟨uid, current, none, "error", "latest version not available", filePresent, filePath⟩],
          errors := st2.errors + 1,
          skipped := st2.skipped ++ [strOf uid ++ "_" ++ strOfOpt current] }
      | some l =>
        -- `latest_version != current_version`: equal only when the current
        -- version is the same string
        if (match current with | some (.str s) => s == l | _ => false) then
          -- up to date relative to Splunkbase
          if filePresent == some false && env.fixMissing then
            if env.dryRun then
              { st2 with
                skipped := st2.skipped ++ [strOf uid ++ "_" ++ strOfOpt current],
                evalResults := st2.evalResults ++
                  [⟨uid, current, some l, "plan-redownload", "missing file", some false, filePath⟩] }
            else
              let dl := download_stream st2.fs env.outDir (strOf uid) l
                (env.remote uid l) env.lmParse env.nowIso env.now
              let st3 :=
                { st2 with
                  fs := dl.fs,
                  downloaded := st2.downloaded ++ dl.downloaded,
                  skipped := st2.skipped ++ dl.skipped }
              match dl.ret with
              | some t =>
                { st3 with
                  apps := upsertApps st3.apps uid l t,
                  evalResults := st3.evalResults ++
                    [⟨uid, current, some l, "redownloaded", "declared file was missing",
                      some true, some (expected_file_path env.outDir (strOf uid) l)⟩] }
              | none =>
                { st3 with
                  errors := st3.errors + 1,
                  evalResults := st3.evalResults ++
                    [⟨uid, current, some l, "error", "redownload failed", some false, filePath⟩] }
          else
            { st2 with
              upToDate := st2.upToDate + 1,
              skipped := st2.skipped ++ [strOf uid ++ "_" ++ strOfOpt current],
              evalResults := st2.evalResults ++
                [⟨uid, current, some l, "skip", "already up-to-date", filePresent, filePath⟩] }
        else
          -- update available
          let st3 := { st2 with toUpdate := st2.toUpdate + 1 }
          if env.dryRun then
            { st3 with
              skipped := st3.skipped ++ [strOf uid ++ "_" ++ strOfOpt current],
              evalResults := st3.evalResults ++
                [⟨uid, current, some l, "plan-update", "dry-run", filePresent, filePath⟩] }
          else
            let dl := download_stream st3.fs env.outDir (strOf uid) l
              (env.remote uid l) env.lmParse env.nowIso env.now
            let st4 :=
              { st3 with
                fs := dl.fs,
                downloaded := st3.downloaded ++ dl.downloaded,
                skipped := st3.skipped ++ dl.skipped }
            match dl.ret with
            | some t =>
              { st4 with
                apps := upsertApps st4.apps uid l t,
                evalResults := st4.evalResults ++
                  [⟨uid, current, some l, "updated", "downloaded and file updated",
                    some true, some (expected_file_path env.outDir (strOf uid) l)⟩] }
            | none =>
              { st4 with
                errors := st4.errors + 1,
                evalResults := st4.evalResults ++
                  [⟨uid, current, some l, "error", "download failed", filePresent, filePath⟩] }

/-- The full pass over the manifest records. -/
def runPass (env : Env) (st : St) : List JDict → St
  | [] => st
  | a :: rest => runPass env (processOne env st a) rest

/-! ## Auxiliary definitions used by the theorem statements -/

/-- The first-seen uid map after the validation loop has processed a list
of entries (the `seen_uids` dict threaded through `validateList`). -/
def seenAfter : List JValue → Nat → List (Int × Nat) → List (Int × Nat)
  | [], _, seen => seen
  | x :: xs, idx, seen => seenAfter xs (idx + 1) (validateEntry idx x seen).snd.snd.snd

/-- The issue text validate_apps_data attaches to a duplicate uid. -/
def dupIssueStr (i0 : Nat) : String :=
  "ERR: duplicate uid (also in index " ++ toString i0 ++ ")"

/-- A record is "marked duplicate" when one of its issues is a duplicate-uid
issue. -/
def markedDuplicate (r : VRes) : Prop :=
  ∃ i0 : Nat, dupIssueStr i0 ∈ r.issues

/-- The backup file name `create_backup` uses at wall-clock second `t`. -/
def bakName (target : String) (t : Nat) : String :=
  target ++ ".bak-" ++ tsName t

/-- Scenario for the backup-rotation claim: a manifest that exists with
content `c0` and mtime `t 0`, then `k` successive successful
`atomic_write_json` calls, the `i`-th using temporary name `tmp i`, data
`ds i` and wall clock `t i`. -/
def writeSeq (target : String) (tmp : Nat → String) (ds : Nat → JValue)
    (keep : Nat) (t : Nat → Nat) (c0 : String) : Nat → FS
  | 0 => [(target, ⟨c0, t 0⟩)]
  | k + 1 =>
    (atomic_write_json (writeSeq target tmp ds keep t c0 k) target (tmp (k + 1))
      (ds (k + 1)) keep (t (k + 1)) .fnone).fs

/-- The document content the `i`-th write of `writeSeq` leaves in the
manifest (`i = 0` being the initial content). -/
def seqContent (ds : Nat → JValue) (c0 : String) : Nat → String
  | 0 => c0
  | i + 1 => jser (ds (i + 1)) ++ "\n"

/-- The canonical backup-file population after `k` writes with retention
`keep`: the backup created by write `i` is named after `t i` and carries
the pre-write manifest (content of write `i - 1`, with its mtime, as
`shutil.copy2` preserves it); rotation keeps the `keep` newest. -/
def bakEntries (target : String) (ds : Nat → JValue) (keep : Nat) (t : Nat → Nat)
    (c0 : String) : Nat → List (String × FileData)
  | 0 => []
  | k + 1 =>
    (bakName target (t (k + 1)), ⟨seqContent ds c0 k, t k⟩) ::
      (bakEntries target ds keep t c0 k).take (keep - 1)

/-- A well-formed manifest record used by concrete scenarios. -/
def exApp : JDict :=
  [("uid", .int 5), ("version", .str "1.0"), ("name", .str "A"),
   ("appid", .str "a"), ("updated_time", .str "2025-01-01T00:00:00+00:00")]

/-- A loop state holding `exApp`, with the archives of both version 1.0 and
version 1.1 of app 5 already on disk. -/
def exStC3 : St :=
  { apps := [exApp],
    fs := [("out/5_1.1.tgz", ⟨"new-archive", 1⟩), ("out/5_1.0.tgz", ⟨"old-archive", 1⟩)],
    evalResults := [], downloaded := [], skipped := [],
    total := 0, toUpdate := 0, upToDate := 0, errors := 0, missingFiles := 0 }

/-- An environment whose remote reports version 1.1 as latest, with
downloads succeeding, no filters, no dry-run. -/
def exEnvC3 : Env :=
  { latest := fun _ => some "1.1",
    remote := fun _ _ => .reply 200 ["bytes"] none,
    lmParse := fun _ => none,
    nowIso := "2025-06-01T00:00:00+00:00",
    now := 9, outDir := "out", dryRun := false, fixMissing := false,
    onlyUids := none, excludeUids := none }

/-- An environment whose latest-version lookup always fails. -/
def exEnvC4 : Env :=
  { latest := fun _ => none,
    remote := fun _ _ => .netError,
    lmParse := fun _ => none,
    nowIso := "2025-06-01T00:00:00+00:00",
    now := 0, outDir := "out", dryRun := false, fixMissing := false,
    onlyUids := none, excludeUids := none }

/-- An environment for the fix-missing scenario: the latest version equals
the declared one, downloads succeed, `--fix-missing` is on. -/
def exEnvC5 : Env :=
  { latest := fun _ => some "1.0",
    remote := fun _ _ => .reply 200 ["bytes"] none,
    lmParse := fun _ => none,
    nowIso := "2025-06-01T00:00:00+00:00",
    now := 4, outDir := "out", dryRun := false, fixMissing := true,
    onlyUids := none, excludeUids := none }

/-- A loop state holding `exApp` with an empty output directory (the
declared archive is missing). -/
def exStC5 : St :=
  { apps := [exApp], fs := [], evalResults := [], downloaded := [], skipped := [],
    total := 0, toUpdate := 0, upToDate := 0, errors := 0, missingFiles := 0 }

/-! # Basic file-system lemmas -/

theorem fsLookup_cons (a : String × FileData) (fs : FS) (q : String) :
    fsLookup (a :: fs) q = if a.fst = q then some a.snd else fsLookup fs q := by
  by_cases h : a.fst = q
  · simp [fsLookup, List.find?_cons, h]
  · simp [fsLookup, List.find?_cons, h]

theorem fsLookup_filter_ne (fs : FS) (p q : String) (h : q ≠ p) :
    fsLookup (fs.filter (fun e => e.fst != p)) q = fsLookup fs q := by
  induction fs with
  | nil => rfl
  | cons a rest ih =>
    rw [List.filter_cons]
    by_cases hap : a.fst = p
    · simp only [hap, bne_self_eq_false, Bool.false_eq_true, if_false]
      rw [ih, fsLookup_cons, if_neg]
      intro e
      exact h (by rw [← e]; exact hap)
    · have hk : (a.fst != p) = true := by simp [hap]
      simp only [hk, if_true]
      rw [fsLookup_cons, fsLookup_cons, ih]

theorem fsLookup_filter_self (fs : FS) (p : String) :
    fsLookup (fs.filter (fun e => e.fst != p)) p = none := by
  induction fs with
  | nil => rfl
  | cons a rest ih =>
    rw [List.filter_cons]
    by_cases hap : a.fst = p
    · simp only [hap, bne_self_eq_false]
      exact ih
    · have : (a.fst != p) = true := by simp [hap]
      simp only [this, if_true]
      rw [fsLookup_cons]
      simp [hap, ih]

theorem fsLookup_fsWrite (fs : FS) (p c : String) (t : Nat) (q : String) :
    fsLookup (fsWrite fs p c t) q = if q = p then some ⟨c, t⟩ else fsLookup fs q := by
  unfold fsWrite
  rw [fsLookup_cons]
  by_cases h : q = p
  · simp [h]
  · simp [h, Ne.symm h, fsLookup_filter_ne fs p q h]

theorem fsLookup_fsRemove (fs : FS) (p q : String) :
    fsLookup (fsRemove fs p) q = if q = p then none else fsLookup fs q := by
  unfold fsRemove
  by_cases h : q = p
  · simp [h, fsLookup_filter_self]
  · simp [h, fsLookup_filter_ne fs p q h]

theorem fsExists_fsRemove_self (fs : FS) (p : String) :
    fsExists (fsRemove fs p) p = false := by
  simp [fsExists, fsLookup_fsRemove]

/-! # C2 -/

/-- C2: for every fetch of (uid, version) into a destination directory, if
a transport failure occurs (the request fails outright or dies mid-stream)
or the remote status is non-success, then after the fetch returns the
target path `{uid}_{version}.tgz` does not exist — no partial or truncated
file is retained — and the fetch reports failure (returns None). The
already-present hypothesis expresses that a fetch (and hence a failure)
happens at all: with the target present, download_stream returns before
any remote interaction. -/
theorem c2_transport_failure_leaves_no_partial_file
    (fs : FS) (outDir uidStr ver : String) (remote : RemoteResult)
    (lmParse : String → Option String) (nowIso : String) (now : Nat)
    (hAbsent : fsExists fs (outDir ++ "/" ++ tgzName uidStr ver) = false)
    (hFail : remote = .netError ∨ (∃ w, remote = .midStream w) ∨
      (∃ s ch lm, remote = .reply s ch lm ∧ s ≠ 200)) :
    fsExists (download_stream fs outDir uidStr ver remote lmParse nowIso now).fs
      (outDir ++ "/" ++ tgzName uidStr ver) = false ∧
    (download_stream fs outDir uidStr ver remote lmParse nowIso now).ret = none := by
  rcases hFail with h | ⟨w, h⟩ | ⟨s, ch, lm, h, hs⟩
  · subst h
    simp [download_stream, hAbsent]
  · subst h
    simp [download_stream, hAbsent, fsExists_fsRemove_self]
  · subst h
    have hs2 : (s != 200) = true := by simpa using hs
    simp [download_stream, hAbsent, hs2]

/-- Witness for C2 at a concrete input: empty directory, mid-stream
failure after two chunks were written. -/
theorem c2_transport_failure_leaves_no_partial_file_witness :
    fsExists (download_stream [] "out" "5" "1.0" (.midStream "par") (fun _ => none) "ts" 3).fs
      ("out" ++ "/" ++ tgzName "5" "1.0") = false ∧
    (download_stream [] "out" "5" "1.0" (.midStream "par") (fun _ => none) "ts" 3).ret = none :=
  c2_transport_failure_leaves_no_partial_file [] "out" "5" "1.0" (.midStream "par")
    (fun _ => none) "ts" 3 rfl (Or.inr (Or.inl ⟨"par", rfl⟩))

theorem expected_file_path_def (o u v : String) :
    expected_file_path o u v = o ++ "/" ++ tgzName u v := rfl

/-! # Backup-path isolation lemmas -/

theorem leadsChars_length {p s : List Char} (h : leadsChars p s = true) :
    p.length ≤ s.length := by
  induction p generalizing s with
  | nil => simp
  | cons a as ih =>
    cases s with
    | nil => simp [leadsChars] at h
    | cons b bs =>
      simp only [leadsChars, Bool.and_eq_true] at h
      simpa using ih h.2

theorem leadsChars_append (p s : List Char) : leadsChars p (p ++ s) = true := by
  induction p with
  | nil => rfl
  | cons a as ih => simp [leadsChars, ih]

theorem strLeads_append (p s : String) : strLeads p (p ++ s) = true := by
  have : (p ++ s).data = p.data ++ s.data := rfl
  simp [strLeads, this, leadsChars_append]

theorem strLeads_bakLead_self (target : String) :
    strLeads (target ++ ".bak-") target = false := by
  by_contra h
  have h2 : leadsChars (target ++ ".bak-").data target.data = true := by
    simpa [strLeads] using h
  have h3 := leadsChars_length h2
  have h4 : (target ++ ".bak-").data = target.data ++ (".bak-" : String).data := rfl
  rw [h4] at h3
  simp at h3

theorem fsLookup_foldl_remove (L : List (String × FileData)) (fs : FS) (q : String)
    (h : ∀ e ∈ L, e.fst ≠ q) :
    fsLookup (L.foldl (fun acc e => fsRemove acc e.fst) fs) q = fsLookup fs q := by
  induction L generalizing fs with
  | nil => rfl
  | cons e rest ih =>
    have he : e.fst ≠ q := h e (by simp)
    have hrest : ∀ e2 ∈ rest, e2.fst ≠ q := fun e2 hm => h e2 (by simp [hm])
    rw [List.foldl_cons, ih _ hrest, fsLookup_fsRemove, if_neg (fun e2 => he e2.symm)]

theorem rotate_backups_lookup (fs : FS) (target : String) (keep : Nat) (q : String)
    (h : strLeads (target ++ ".bak-") q = false) :
    fsLookup (rotate_backups fs target keep) q = fsLookup fs q := by
  unfold rotate_backups
  apply fsLookup_foldl_remove
  intro e hm he
  have hmem : e ∈ fs.filter (fun e => strLeads (target ++ ".bak-") e.fst) :=
    (List.mem_insertionSort _).mp (List.mem_of_mem_drop hm)
  have hp : strLeads (target ++ ".bak-") e.fst = true := by
    simpa using List.of_mem_filter hmem
  rw [he, h] at hp
  exact Bool.false_ne_true hp

theorem create_backup_lookup (fs : FS) (target : String) (keep : Nat) (now : Nat)
    (fault : WFault) (q : String) (h : strLeads (target ++ ".bak-") q = false) :
    fsLookup (create_backup fs target keep now fault) q = fsLookup fs q := by
  unfold create_backup
  by_cases hk : keep == 0
  · simp [hk]
  · simp only [hk, Bool.false_eq_true, if_false]
    cases hfd : fsLookup fs target with
    | none => rfl
    | some fd =>
      by_cases hf : fault == WFault.backupCopy
      · simp [hf]
      · simp only [hf, Bool.false_eq_true, if_false]
        rw [rotate_backups_lookup _ _ _ _ h, fsLookup_fsWrite]
        have : q ≠ target ++ ".bak-" ++ tsName now := by
          intro e
          rw [e, strLeads_append] at h
          exact Bool.false_ne_true h.symm
        simp [this]

/-! # Dictionary and upsert lemmas -/

theorem dictGet_cons (k0 : String) (v0 : JValue) (d : JDict) (k : String) :
    dictGet ((k0, v0) :: d) k = if k0 = k then some v0 else dictGet d k := by
  by_cases h : k0 = k
  · simp [dictGet, List.find?_cons, h]
  · simp [dictGet, List.find?_cons, h]

theorem dictSet_of_get_self (d : JDict) (k : String) (v : JValue)
    (h : dictGet d k = some v) : dictSet d k v = d := by
  induction d with
  | nil => simp [dictGet] at h
  | cons e rest ih =>
    rcases e with ⟨k0, v0⟩
    rw [dictGet_cons] at h
    by_cases hk : k0 = k
    · simp only [hk, if_true] at h
      simp [dictSet, hk, Option.some.injEq] at h ⊢
      exact h.symm
    · simp only [hk, if_false] at h
      simp [dictSet, hk, ih h]

theorem dictGet_dictSet_self (d : JDict) (k : String) (v : JValue) :
    dictGet (dictSet d k v) k = some v := by
  induction d with
  | nil => simp [dictSet, dictGet_cons]
  | cons e rest ih =>
    rcases e with ⟨k0, v0⟩
    by_cases hk : k0 = k
    · simp [dictSet, hk, dictGet_cons]
    · simp [dictSet, hk, dictGet_cons, ih]

theorem dictGet_dictSet_ne (d : JDict) (k k2 : String) (v : JValue) (h : k2 ≠ k) :
    dictGet (dictSet d k v) k2 = dictGet d k2 := by
  have hne : ¬ k = k2 := fun e => h e.symm
  induction d with
  | nil => simp [dictSet, dictGet_cons, hne, dictGet]
  | cons e rest ih =>
    rcases e with ⟨k0, v0⟩
    by_cases hk : k0 = k
    · subst hk
      simp [dictSet, dictGet_cons, hne]
    · simp [dictSet, hk, dictGet_cons, ih]

theorem upsertApps_found (pre : List JDict) (d : JDict) (post : List JDict)
    (uid : JValue) (nv ut : String)
    (hpre : ∀ d2 ∈ pre, optJEq (getPy d2 "uid") uid = false)
    (hd : optJEq (getPy d "uid") uid = true) :
    upsertApps (pre ++ d :: post) uid nv ut =
      pre ++ dictSet (dictSet d "version" (.str nv)) "updated_time" (.str ut) :: post := by
  induction pre with
  | nil => simp [upsertApps, hd]
  | cons e rest ih =>
    have he : optJEq (getPy e "uid") uid = false := hpre e (by simp)
    have hrest : ∀ d2 ∈ rest, optJEq (getPy d2 "uid") uid = false :=
      fun d2 hm => hpre d2 (by simp [hm])
    simp [upsertApps, he, ih hrest]

theorem upsertApps_absent (apps : List JDict) (uid : JValue) (nv ut : String)
    (h : ∀ d ∈ apps, optJEq (getPy d "uid") uid = false) :
    upsertApps apps uid nv ut =
      apps ++ [[("uid", uid), ("version", .str nv), ("updated_time", .str ut)]] := by
  induction apps with
  | nil => simp [upsertApps]
  | cons e rest ih =>
    have he : optJEq (getPy e "uid") uid = false := h e (by simp)
    have hrest : ∀ d ∈ rest, optJEq (getPy d "uid") uid = false :=
      fun d hm => h d (by simp [hm])
    simp [upsertApps, he, ih hrest]

/-! # C1 -/

theorem atomic_write_json_spec (fs : FS) (target tmp : String) (data : JValue)
    (keep now : Nat) (fault : WFault) (htmp : tmp ≠ target) :
    ((fault = .fnone ∨ fault = .backupCopy) →
      (atomic_write_json fs target tmp data keep now fault).ok = true ∧
      fsContent (atomic_write_json fs target tmp data keep now fault).fs target =
        some (jser data ++ "\n")) ∧
    ((fault = .tmpWrite ∨ fault = .replace) →
      (atomic_write_json fs target tmp data keep now fault).ok = false ∧
      fsLookup (atomic_write_json fs target tmp data keep now fault).fs target =
        fsLookup fs target ∧
      fsExists (atomic_write_json fs target tmp data keep now fault).fs tmp = false) := by
  have hT : ¬ target = tmp := fun e => htmp e.symm
  have h0 : fsLookup (if (keep != 0) = true then create_backup fs target keep now fault else fs)
      target = fsLookup fs target := by
    split
    · exact create_backup_lookup _ _ _ _ _ _ (strLeads_bakLead_self target)
    · rfl
  cases fault with
  | fnone =>
    refine ⟨fun _ => ⟨rfl, ?_⟩, fun h => by rcases h with h | h <;> cases h⟩
    simp only [atomic_write_json]
    unfold fsContent
    rw [fsLookup_fsWrite]
    simp
  | backupCopy =>
    refine ⟨fun _ => ⟨rfl, ?_⟩, fun h => by rcases h with h | h <;> cases h⟩
    simp only [atomic_write_json]
    unfold fsContent
    rw [fsLookup_fsWrite]
    simp
  | tmpWrite =>
    refine ⟨?_, fun _ => ⟨rfl, ?_, ?_⟩⟩
    · intro h
      rcases h with h | h <;> cases h
    · simp only [atomic_write_json]
      rw [fsLookup_fsRemove, if_neg hT, fsLookup_fsWrite, if_neg hT, h0]
    · simp only [atomic_write_json]
      exact fsExists_fsRemove_self _ _
  | replace =>
    refine ⟨?_, fun _ => ⟨rfl, ?_, ?_⟩⟩
    · intro h
      rcases h with h | h <;> cases h
    · simp only [atomic_write_json]
      rw [fsLookup_fsRemove, if_neg hT, fsLookup_fsWrite, if_neg hT,
        fsLookup_fsWrite, if_neg hT, h0]
    · simp only [atomic_write_json]
      exact fsExists_fsRemove_self _ _

theorem update_Your_apps_file_atomic_spec (apps : List JDict) (uid : JValue)
    (nv ut : String) (fs : FS) (target tmp : String)
    (keep now : Nat) (fault : WFault) (htmp : tmp ≠ target) :
    (update_Your_apps_file_atomic apps uid nv ut fs target tmp keep now fault).apps =
      upsertApps apps uid nv ut ∧
    ((fault = .fnone ∨ fault = .backupCopy) →
      (update_Your_apps_file_atomic apps uid nv ut fs target tmp keep now fault).ok = true ∧
      fsContent (update_Your_apps_file_atomic apps uid nv ut fs target tmp keep now fault).fs
        target = some (jser (jOfApps (upsertApps apps uid nv ut)))) ∧
    ((fault = .tmpWrite ∨ fault = .replace) →
      (update_Your_apps_file_atomic apps uid nv ut fs target tmp keep now fault).ok = false ∧
      fsLookup (update_Your_apps_file_atomic apps uid nv ut fs target tmp keep now fault).fs
        target = fsLookup fs target ∧
      fsExists (update_Your_apps_file_atomic apps uid nv ut fs target tmp keep now fault).fs
        tmp = false) := by
  have hT : ¬ target = tmp := fun e => htmp e.symm
  have h0 : fsLookup (if (keep != 0) = true then create_backup fs target keep now fault else fs)
      target = fsLookup fs target := by
    split
    · exact create_backup_lookup _ _ _ _ _ _ (strLeads_bakLead_self target)
    · rfl
  cases fault with
  | fnone =>
    refine ⟨rfl, fun _ => ⟨rfl, ?_⟩, ?_⟩
    · simp only [update_Your_apps_file_atomic]
      unfold fsContent
      rw [fsLookup_fsWrite]
      simp
    · intro h
      rcases h with h | h <;> cases h
  | backupCopy =>
    refine ⟨rfl, fun _ => ⟨rfl, ?_⟩, ?_⟩
    · simp only [update_Your_apps_file_atomic]
      unfold fsContent
      rw [fsLookup_fsWrite]
      simp
    · intro h
      rcases h with h | h <;> cases h
  | tmpWrite =>
    refine ⟨rfl, ?_, fun _ => ⟨rfl, ?_, ?_⟩⟩
    · intro h
      rcases h with h | h <;> cases h
    · simp only [update_Your_apps_file_atomic]
      rw [fsLookup_fsRemove, if_neg hT, fsLookup_fsWrite, if_neg hT, h0]
    · simp only [update_Your_apps_file_atomic]
      exact fsExists_fsRemove_self _ _
  | replace =>
    refine ⟨rfl, ?_, fun _ => ⟨rfl, ?_, ?_⟩⟩
    · intro h
      rcases h with h | h <;> cases h
    · simp only [update_Your_apps_file_atomic]
      rw [fsLookup_fsRemove, if_neg hT, fsLookup_fsWrite, if_neg hT,
        fsLookup_fsWrite, if_neg hT, h0]
    · simp only [update_Your_apps_file_atomic]
      exact fsExists_fsRemove_self _ _

/-- C1 counterexample: a failure strictly before the final replace — the
backup copy raising inside create_backup — does not propagate: the write
continues, returns success, and replaces the manifest with the new
serialized content, contradicting the claim that any failure before the
replace leaves the manifest byte-for-byte unchanged and propagates the
exception to the caller. -/
theorem c1_counterexample :
    (atomic_write_json [("m.json", ⟨"old", 0⟩)] "m.json" "tmp1" .null 5 7 .backupCopy).ok
      = true ∧
    fsContent (atomic_write_json [("m.json", ⟨"old", 0⟩)] "m.json" "tmp1" .null 5 7
      .backupCopy).fs "m.json" = some (jser .null ++ "\n") ∧
    jser .null ++ "\n" ≠ "old" := by
  refine ⟨rfl, rfl, ?_⟩
  have hj : jser JValue.null = "null" := by simp [jser]
  rw [hj]
  decide

/-- C1 (amended): for both manifest writers, when the serialize-and-replace
sequence runs without fault (including the case where the backup copy
failed — create_backup swallows its own exceptions and the write proceeds),
the call returns normally and the manifest file on disk equals exactly the
serialized written content; when a fault strikes the temporary-file write
or the replace step, the temporary file is removed, the manifest file is
byte-for-byte unchanged (same content and metadata), and the exception
propagates to the caller. The in-memory upsert of
update_Your_apps_file_atomic has happened in every case. -/
theorem c1_write_atomicity :
    (∀ (fs : FS) (target tmp : String) (data : JValue) (keep now : Nat) (fault : WFault),
      tmp ≠ target →
      ((fault = .fnone ∨ fault = .backupCopy) →
        (atomic_write_json fs target tmp data keep now fault).ok = true ∧
        fsContent (atomic_write_json fs target tmp data keep now fault).fs target =
          some (jser data ++ "\n")) ∧
      ((fault = .tmpWrite ∨ fault = .replace) →
        (atomic_write_json fs target tmp data keep now fault).ok = false ∧
        fsLookup (atomic_write_json fs target tmp data keep now fault).fs target =
          fsLookup fs target ∧
        fsExists (atomic_write_json fs target tmp data keep now fault).fs tmp = false)) ∧
    (∀ (apps : List JDict) (uid : JValue) (nv ut : String) (fs : FS)
        (target tmp : String) (keep now : Nat) (fault : WFault),
      tmp ≠ target →
      (update_Your_apps_file_atomic apps uid nv ut fs target tmp keep now fault).apps =
        upsertApps apps uid nv ut ∧
      ((fault = .fnone ∨ fault = .backupCopy) →
        (update_Your_apps_file_atomic apps uid nv ut fs target tmp keep now fault).ok = true ∧
        fsContent (update_Your_apps_file_atomic apps uid nv ut fs target tmp keep now
          fault).fs target = some (jser (jOfApps (upsertApps apps uid nv ut)))) ∧
      ((fault = .tmpWrite ∨ fault = .replace) →
        (update_Your_apps_file_atomic apps uid nv ut fs target tmp keep now fault).ok = false ∧
        fsLookup (update_Your_apps_file_atomic apps uid nv ut fs target tmp keep now
          fault).fs target = fsLookup fs target ∧
        fsExists (update_Your_apps_file_atomic apps uid nv ut fs target tmp keep now
          fault).fs tmp = false)) :=
  ⟨fun fs target tmp data keep now fault htmp =>
    atomic_write_json_spec fs target tmp data keep now fault htmp,
   fun apps uid nv ut fs target tmp keep now fault htmp =>
    update_Your_apps_file_atomic_spec apps uid nv ut fs target tmp keep now fault htmp⟩

/-- Witness for C1: concrete successful and failing writes. -/
theorem c1_write_atomicity_witness :
    (atomic_write_json [("m.json", ⟨"old", 0⟩)] "m.json" "tmp1" .null 5 7 .fnone).ok = true ∧
    (atomic_write_json [("m.json", ⟨"old", 0⟩)] "m.json" "tmp1" .null 5 7 .tmpWrite).ok
      = false ∧
    fsLookup (atomic_write_json [("m.json", ⟨"old", 0⟩)] "m.json" "tmp1" .null 5 7
      .tmpWrite).fs "m.json" = fsLookup [("m.json", ⟨"old", 0⟩)] "m.json" ∧
    (update_Your_apps_file_atomic [] (.int 1) "1.0" "t" [] "m.json" "tmp1" 5 7 .fnone).ok
      = true := by
  refine ⟨?_, ?_, ?_, ?_⟩
  · exact ((c1_write_atomicity.1 [("m.json", ⟨"old", 0⟩)] "m.json" "tmp1" .null 5 7 .fnone
      (by decide)).1 (Or.inl rfl)).1
  · exact ((c1_write_atomicity.1 [("m.json", ⟨"old", 0⟩)] "m.json" "tmp1" .null 5 7 .tmpWrite
      (by decide)).2 (Or.inl rfl)).1
  · exact ((c1_write_atomicity.1 [("m.json", ⟨"old", 0⟩)] "m.json" "tmp1" .null 5 7 .tmpWrite
      (by decide)).2 (Or.inl rfl)).2.1
  · exact ((c1_write_atomicity.2 [] (.int 1) "1.0" "t" [] "m.json" "tmp1" 5 7 .fnone
      (by decide)).2.1 (Or.inl rfl)).1

/-! # C3 -/

/-- C3 counterexample: with the target archive of the remote's latest
version already present on disk and an update pending (current "1.0",
latest "1.1"), the fetch is skipped (recorded in the skipped list, file
system untouched), but because download_stream returns None — its failure
value — the decision engine reports the record as action "error" with
reason "download failed" and increments the error counter, contradicting
the claim that an already-present target is never reported as a failure
or error. -/
theorem c3_counterexample :
    (processOne exEnvC3 exStC3 exApp).errors = 1 ∧
    (processOne exEnvC3 exStC3 exApp).evalResults.map (fun r => (r.action, r.reason)) =
      [("error", "download failed")] ∧
    (processOne exEnvC3 exStC3 exApp).skipped = ["5_1.1.tgz"] ∧
    (processOne exEnvC3 exStC3 exApp).fs = exStC3.fs := by
  refine ⟨?_, ?_, ?_, ?_⟩ <;> rfl

/-- C3 (amended): when the target path `{uid}_{version}.tgz` already exists,
download_stream performs no network I/O, leaves the file system unchanged
and records the file name in the skipped list — but it returns None, the
same value it returns on failure; consequently, on the update path of the
decision loop (latest differs from current and the latest version's target
already exists), the run records action "error" with reason "download
failed" for that record rather than a skip. -/
theorem c3_existing_target_skip_is_reported_as_error :
    (∀ (fs : FS) (outDir uidStr ver : String) (remote : RemoteResult)
        (lmParse : String → Option String) (nowIso : String) (now : Nat),
        fsExists fs (outDir ++ "/" ++ tgzName uidStr ver) = true →
        download_stream fs outDir uidStr ver remote lmParse nowIso now =
          { fs := fs, ret := none, downloaded := [], skipped := [tgzName uidStr ver],
            network := false }) ∧
    (∀ (env : Env) (st : St) (app : JDict) (n : Int) (cv l : String),
        getPy app "uid" = some (.int n) →
        env.onlyUids = none →
        env.excludeUids = none →
        env.latest (.int n) = some l →
        l ≠ "" →
        getPy app "version" = some (.str cv) →
        (cv == l) = false →
        env.dryRun = false →
        fsExists st.fs (expected_file_path env.outDir (strOf (.int n)) l) = true →
        (processOne env st app).errors = st.errors + 1 ∧
        (∃ fp fpath,
          (processOne env st app).evalResults = st.evalResults ++
            [⟨.int n, some (.str cv), some l, "error", "download failed", fp, fpath⟩]) ∧
        (processOne env st app).apps = st.apps ∧
        (processOne env st app).fs = st.fs ∧
        (processOne env st app).skipped = st.skipped ++ [tgzName (strOf (.int n)) l]) := by
  constructor
  · intro fs outDir uidStr ver remote lmParse nowIso now h
    simp [download_stream, h]
  · intro env st app n cv l h1 h2 h3 h4 h5 h6 h7 h8 h9
    have hl : (l == "") = false := by
      simpa using h5
    have h9x : fsExists st.fs (env.outDir ++ "/" ++ tgzName (strOf (.int n)) l) = true := h9
    cases hb : fsExists st.fs (env.outDir ++ "/" ++ tgzName (strOf (.int n)) cv) <;>
      simp [processOne, fpCheck, latestEffective, h1, h2, h3, h4, hl, h6, h7, h8, hb,
        expected_file_path_def, download_stream, h9x]

/-- Witness for the amended C3 theorem at concrete inputs: a skip of an
already-present archive, and the concrete update-branch run of `exEnvC3`
reporting it as an error. -/
theorem c3_existing_target_skip_is_reported_as_error_witness :
    download_stream [("o/7_2.0.tgz", ⟨"x", 1⟩)] "o" "7" "2.0" .netError (fun _ => none) "ts" 0 =
      { fs := [("o/7_2.0.tgz", ⟨"x", 1⟩)], ret := none, downloaded := [],
        skipped := [tgzName "7" "2.0"], network := false } ∧
    (processOne exEnvC3 exStC3 exApp).errors = exStC3.errors + 1 := by
  constructor
  · exact c3_existing_target_skip_is_reported_as_error.1 [("o/7_2.0.tgz", ⟨"x", 1⟩)]
      "o" "7" "2.0" .netError (fun _ => none) "ts" 0 rfl
  · exact (c3_existing_target_skip_is_reported_as_error.2 exEnvC3 exStC3 exApp 5 "1.0" "1.1"
      rfl rfl rfl rfl (by decide) rfl rfl rfl rfl).1

/-! # C4 -/

/-- C4: for every manifest record whose remote latest-version lookup fails
(network failure, non-200 status, malformed response, missing identifier —
all of which make get_latest_version_safe return None, and the loop also
treats an empty string as unavailable), the decision loop records action
"error" with reason "latest version not available", leaves the in-memory
manifest (and the file system) unchanged, increments the error counter by
exactly one, and the pass continues with the subsequent records from this
unchanged state. -/
theorem c4_lookup_failure_is_isolated
    (env : Env) (st : St) (app : JDict) (rest : List JDict) (uid : JValue)
    (h1 : getPy app "uid" = some uid)
    (h2 : env.onlyUids = none) (h3 : env.excludeUids = none)
    (h4 : env.latest uid = none ∨ env.latest uid = some "") :
    (processOne env st app).errors = st.errors + 1 ∧
    (processOne env st app).apps = st.apps ∧
    (processOne env st app).fs = st.fs ∧
    (processOne env st app).evalResults = st.evalResults ++
      [⟨uid, getPy app "version", none, "error", "latest version not available",
        (fpCheck env.outDir st.fs uid (getPy app "version")).map (fun e => e.fst),
        (fpCheck env.outDir st.fs uid (getPy app "version")).map (fun e => e.snd)⟩] ∧
    runPass env st (app :: rest) = runPass env (processOne env st app) rest := by
  have hEff : latestEffective env uid = none := by
    rcases h4 with h | h <;> simp [latestEffective, h]
  rcases hfp : fpCheck env.outDir st.fs uid (getPy app "version") with _ | ⟨b, p⟩
  · simp [processOne, h1, h2, h3, hEff, hfp, runPass]
  · cases b <;> simp [processOne, h1, h2, h3, hEff, hfp, runPass]

/-- Witness for C4: the concrete record `exApp` under the failing-lookup
environment `exEnvC4`. -/
theorem c4_lookup_failure_is_isolated_witness :
    (processOne exEnvC4 exStC3 exApp).errors = exStC3.errors + 1 ∧
    (processOne exEnvC4 exStC3 exApp).apps = exStC3.apps := by
  have h := c4_lookup_failure_is_isolated exEnvC4 exStC3 exApp [] (.int 5)
    rfl rfl rfl (Or.inl rfl)
  exact ⟨h.1, h.2.1⟩

/-! # C5 -/

/-- C5: on the fix-missing path (latest equals current, declared file
missing, fix-missing enabled, not dry-run) with a successful re-download
returning time `t`, the committed manifest entry is the old entry with
`updated_time` set to `t`: its `version` is unchanged (the code re-assigns
the same current version string) and every other field is unchanged; the
recorded action is "redownloaded", and the error counter does not move. -/
theorem c5_fix_missing_refreshes_updated_time_only
    (env : Env) (st : St) (app : JDict) (n : Int) (l t : String)
    (pre post : List JDict) (d : JDict)
    (h1 : getPy app "uid" = some (.int n))
    (h2 : env.onlyUids = none) (h3 : env.excludeUids = none)
    (h4 : env.latest (.int n) = some l) (h5 : l ≠ "")
    (h6 : getPy app "version" = some (.str l))
    (h7 : env.fixMissing = true) (h8 : env.dryRun = false)
    (h9 : fsExists st.fs (expected_file_path env.outDir (strOf (.int n)) l) = false)
    (h10 : (download_stream st.fs env.outDir (strOf (.int n)) l (env.remote (.int n) l)
        env.lmParse env.nowIso env.now).ret = some t)
    (hsplit : st.apps = pre ++ d :: post)
    (hpre : ∀ d2 ∈ pre, optJEq (getPy d2 "uid") (.int n) = false)
    (hd : optJEq (getPy d "uid") (.int n) = true)
    (hver : dictGet d "version" = some (.str l)) :
    (processOne env st app).apps = pre ++ dictSet d "updated_time" (.str t) :: post ∧
    dictGet (dictSet d "updated_time" (.str t)) "updated_time" = some (.str t) ∧
    dictGet (dictSet d "updated_time" (.str t)) "version" = some (.str l) ∧
    (∀ k, k ≠ "updated_time" → dictGet (dictSet d "updated_time" (.str t)) k = dictGet d k) ∧
    (processOne env st app).evalResults = st.evalResults ++
      [⟨.int n, some (.str l), some l, "redownloaded", "declared file was missing",
        some true, some (expected_file_path env.outDir (strOf (.int n)) l)⟩] ∧
    (processOne env st app).errors = st.errors := by
  have hl : (l == "") = false := by simpa using h5
  have hup : upsertApps st.apps (.int n) l t =
      pre ++ dictSet d "updated_time" (.str t) :: post := by
    rw [hsplit, upsertApps_found pre d post _ _ _ hpre hd,
      dictSet_of_get_self d "version" (.str l) hver]
  have h9x : fsExists st.fs (env.outDir ++ "/" ++ tgzName (strOf (.int n)) l) = false := h9
  refine ⟨?_, dictGet_dictSet_self _ _ _, ?_, ?_, ?_, ?_⟩
  · simp [processOne, fpCheck, latestEffective, h1, h2, h3, h4, hl, h6, h7, h8, h9x,
      expected_file_path_def, h10, hup]
  · rw [dictGet_dictSet_ne _ _ _ _ (by decide)]
    exact hver
  · intro k hk
    exact dictGet_dictSet_ne _ _ _ _ hk
  · simp [processOne, fpCheck, latestEffective, h1, h2, h3, h4, hl, h6, h7, h8, h9x,
      expected_file_path_def, h10]
  · simp [processOne, fpCheck, latestEffective, h1, h2, h3, h4, hl, h6, h7, h8, h9x,
      expected_file_path_def, h10]

/-- Witness for C5: the concrete record `exApp` under `exEnvC5` with an
empty output directory. -/
theorem c5_fix_missing_refreshes_updated_time_only_witness :
    (processOne exEnvC5 exStC5 exApp).apps =
      [] ++ dictSet exApp "updated_time" (.str "2025-06-01T00:00:00+00:00") :: [] ∧
    (processOne exEnvC5 exStC5 exApp).errors = exStC5.errors := by
  have hd : optJEq (getPy exApp "uid") (.int 5) = true := by
    simp [optJEq, getPy, dictGet, exApp, jeqB]
  have h := c5_fix_missing_refreshes_updated_time_only exEnvC5 exStC5 exApp 5 "1.0"
    "2025-06-01T00:00:00+00:00" [] [] exApp rfl rfl rfl rfl (by decide) rfl rfl rfl rfl rfl
    rfl (by simp) hd rfl
  exact ⟨h.1, h.2.2.2.2.2⟩

/-! # C9 -/

theorem validateList_length (xs : List JValue) (idx : Nat) (seen : List (Int × Nat)) :
    (validateList xs idx seen).fst.length = xs.length := by
  induction xs generalizing idx seen with
  | nil => rfl
  | cons x rest ih => simp [validateList, ih]

/-- C9 counterexample: on a non-list top-level document validate_apps_data
returns normally — a single structural "invalid" classification with
counts (1, 0) — instead of raising an exception, contradicting the claimed
"raises if and only if the top level is not a list". -/
theorem c9_counterexample :
    validate_apps_data (.str "oops") =
      .ok ([⟨none, none, ["Top-level JSON must be a list"], "invalid"⟩], 1, 0) := rfl

/-- C9 (amended): validation never raises at all: every input — list or
not — produces a normal return. A non-list top level yields the single
structural invalid classification with error count 1; every list input,
whatever its entries contain, yields one classification per entry plus
aggregate error and warning counts. -/
theorem c9_validate_total :
    (∀ v : JValue, ∃ r, validate_apps_data v = .ok r) ∧
    (∀ xs : List JValue, ∃ res e w, validate_apps_data (.list xs) = .ok (res, e, w) ∧
      res.length = xs.length) ∧
    (∀ v : JValue, (∀ xs : List JValue, v ≠ .list xs) →
      validate_apps_data v =
        .ok ([⟨none, none, ["Top-level JSON must be a list"], "invalid"⟩], 1, 0)) := by
  refine ⟨?_, ?_, ?_⟩
  · intro v
    cases v <;> exact ⟨_, rfl⟩
  · intro xs
    exact ⟨_, _, _, rfl, validateList_length xs 0 []⟩
  · intro v hv
    cases v with
    | list xs => exact absurd rfl (hv xs)
    | str s => rfl
    | int n => rfl
    | null => rfl
    | obj kvs => rfl

/-- Witness for the amended C9 theorem: the non-list input 3. -/
theorem c9_validate_total_witness :
    validate_apps_data (.int 3) =
      .ok ([⟨none, none, ["Top-level JSON must be a list"], "invalid"⟩], 1, 0) :=
  c9_validate_total.2.2 (.int 3) (fun _ h => JValue.noConfusion h)

/-! # C10 supporting lemmas -/

theorem lookup_append (s t : List (Int × Nat)) (u : Int) :
    (s ++ t).lookup u =
      match s.lookup u with
      | some v => some v
      | none => t.lookup u := by
  induction s with
  | nil => rfl
  | cons a rest ih =>
    rcases a with ⟨k, i⟩
    cases hk : (u == k) <;> simp [List.lookup, hk, ih]

theorem validateEntry_seen (idx : Nat) (x : JValue) (seen : List (Int × Nat)) :
    (validateEntry idx x seen).snd.snd.snd =
      (match x with
      | .obj d =>
        (match getPy d "uid" with
        | some (.int u2) =>
          (match seen.lookup u2 with
           | some _ => seen
           | none => seen ++ [(u2, idx)])
        | _ => seen)
      | _ => seen) := by
  cases x with
  | obj d =>
    rcases hget : getPy d "uid" with _ | w
    · simp [validateEntry, issDup, hget]
    · rcases w with s | u2 | _ | ys | kvs
      · simp [validateEntry, issDup, hget]
      · cases hlk : seen.lookup u2 <;> simp [validateEntry, issDup, hget, hlk]
      · simp [validateEntry, issDup, hget]
      · simp [validateEntry, issDup, hget]
      · simp [validateEntry, issDup, hget]
  | str s => rfl
  | int n => rfl
  | null => rfl
  | list ys => rfl

theorem seenAfter_lookup_none (xs : List JValue) (idx : Nat) (seen : List (Int × Nat))
    (u : Int) (h0 : seen.lookup u = none)
    (h : ∀ x ∈ xs, ∀ d : JDict, x = .obj d → getPy d "uid" ≠ some (.int u)) :
    (seenAfter xs idx seen).lookup u = none := by
  induction xs generalizing idx seen with
  | nil => exact h0
  | cons x rest ih =>
    rw [seenAfter]
    apply ih
    · rw [validateEntry_seen]
      cases x with
      | obj d =>
        dsimp only
        rcases hget : getPy d "uid" with _ | w
        · simp only [hget]
          exact h0
        · rcases w with s | u2 | _ | ys | kvs
          · simp only [hget]
            exact h0
          · simp only [hget]
            have hne : u2 ≠ u := by
              intro e
              exact h (JValue.obj d) (by simp) d rfl (by rw [hget, e])
            cases hlk : seen.lookup u2
            · simp only [hlk]
              rw [lookup_append, h0]
              have hb : (u == u2) = false := by
                simp only [beq_eq_false_iff_ne, ne_eq]
                exact fun e => hne e.symm
              simp [List.lookup, hb]
            · simp only [hlk]
              exact h0
          · simp only [hget]
            exact h0
          · simp only [hget]
            exact h0
          · simp only [hget]
            exact h0
      | str s => exact h0
      | int n => exact h0
      | null => exact h0
      | list ys => exact h0
    · intro y hy d e
      exact h y (by simp [hy]) d e

theorem validateList_append (xs : List JValue) (x : JValue) (idx : Nat)
    (seen : List (Int × Nat)) :
    (validateList (xs ++ [x]) idx seen).fst =
      (validateList xs idx seen).fst ++
        [(validateEntry (idx + xs.length) x (seenAfter xs idx seen)).fst] := by
  induction xs generalizing idx seen with
  | nil => simp [validateList, seenAfter]
  | cons y rest ih =>
    have harith : idx + (rest.length + 1) = idx + 1 + rest.length := by omega
    simp only [List.cons_append, validateList, List.append_eq, ih, seenAfter,
      List.length_cons, harith]

theorem validateEntry_newRec (idx : Nat) (u : Int) (v t : String)
    (seen : List (Int × Nat)) (hs : seen.lookup u = none) :
    ("ERR: Missing required fields: name, appid" ∈
      (validateEntry idx
        (.obj [("uid", .int u), ("version", .str v), ("updated_time", .str t)]) seen).fst.issues)
    ∧
    (validateEntry idx
      (.obj [("uid", .int u), ("version", .str v), ("updated_time", .str t)]) seen).fst.status
      = "invalid" := by
  have hjoin : "ERR: Missing required fields: " ++ String.intercalate ", " ["name", "appid"] =
      "ERR: Missing required fields: name, appid" := rfl
  simp only [validateEntry, issMissing, issUidType, issVerType, issNameType, issAppidType,
    issUpdatedTime, issVerContent, issNameEmpty, issAppidEmpty, issDup]
  constructor
  · simp only [hasKey, dictGet, getPy]
    simp [hjoin, hs]
  · simp only [hasKey, dictGet, getPy]
    simp [hjoin, hs]

/-! # C10 -/

/-- C10: committing a decision for a uid that occurs nowhere in apps_data
makes update_Your_apps_file_atomic append — and persist — a new record
holding only the keys uid, version and updated_time (no name, no appid);
no error is reported at commit time (the write returns success), and the
validator later classifies that appended record invalid with a
missing-required-fields error naming name and appid. -/
theorem c10_untracked_uid_creates_invalid_record
    (apps : List JDict) (u : Int) (v t : String) (fs : FS) (target tmp : String)
    (keep now : Nat)
    (h : ∀ d ∈ apps, optJEq (getPy d "uid") (.int u) = false) :
    upsertApps apps (.int u) v t =
      apps ++ [[("uid", .int u), ("version", .str v), ("updated_time", .str t)]] ∧
    (update_Your_apps_file_atomic apps (.int u) v t fs target tmp keep now .fnone).apps =
      apps ++ [[("uid", .int u), ("version", .str v), ("updated_time", .str t)]] ∧
    (update_Your_apps_file_atomic apps (.int u) v t fs target tmp keep now .fnone).ok = true ∧
    (∃ res e w r,
      validate_apps_data (jOfApps (upsertApps apps (.int u) v t)) = .ok (res, e, w) ∧
      res.getLast? = some r ∧
      "ERR: Missing required fields: name, appid" ∈ r.issues ∧
      r.status = "invalid") := by
  have hup := upsertApps_absent apps (.int u) v t h
  have hseen : (seenAfter (apps.map .obj) 0 []).lookup u = none := by
    apply seenAfter_lookup_none
    · rfl
    · intro x hx d e hgu
      rcases List.mem_map.mp hx with ⟨d0, hd0, hmap⟩
      rw [← hmap] at e
      injection e with e2
      subst e2
      have hfalse := h d0 hd0
      rw [hgu] at hfalse
      simp [optJEq, jeqB] at hfalse
  refine ⟨hup, hup, rfl, ?_⟩
  rw [hup]
  have hlist : jOfApps
      (apps ++ [[("uid", .int u), ("version", .str v), ("updated_time", .str t)]]) =
      .list (apps.map .obj ++
        [.obj [("uid", .int u), ("version", .str v), ("updated_time", .str t)]]) := by
    simp [jOfApps]
  rw [hlist]
  have hlast :
      (validateList (apps.map JValue.obj ++
        [JValue.obj [("uid", .int u), ("version", .str v), ("updated_time", .str t)]])
        0 []).fst =
      (validateList (apps.map JValue.obj) 0 []).fst ++
        [(validateEntry (0 + (apps.map JValue.obj).length)
          (JValue.obj [("uid", .int u), ("version", .str v), ("updated_time", .str t)])
          (seenAfter (apps.map JValue.obj) 0 [])).fst] :=
    validateList_append _ _ 0 []
  have hmarks := validateEntry_newRec (0 + (apps.map JValue.obj).length) u v t
    (seenAfter (apps.map JValue.obj) 0 []) hseen
  refine ⟨_, _, _,
    (validateEntry (0 + (apps.map JValue.obj).length)
      (JValue.obj [("uid", .int u), ("version", .str v), ("updated_time", .str t)])
      (seenAfter (apps.map JValue.obj) 0 [])).fst, rfl, ?_, hmarks.1, hmarks.2⟩
  rw [hlast]
  exact List.getLast?_concat _

/-- Witness for C10: an empty manifest and a commit for uid 42. -/
theorem c10_untracked_uid_creates_invalid_record_witness :
    upsertApps [] (.int 42) "1.0" "2025-01-01T00:00:00+00:00" =
      [] ++ [[("uid", .int 42), ("version", .str "1.0"),
        ("updated_time", .str "2025-01-01T00:00:00+00:00")]] ∧
    (∃ res e w r,
      validate_apps_data (jOfApps (upsertApps [] (.int 42) "1.0"
        "2025-01-01T00:00:00+00:00")) = .ok (res, e, w) ∧
      res.getLast? = some r ∧
      "ERR: Missing required fields: name, appid" ∈ r.issues ∧
      r.status = "invalid") := by
  have h := c10_untracked_uid_creates_invalid_record [] 42 "1.0"
    "2025-01-01T00:00:00+00:00" [] "m.json" "tmp1" 5 7 (by simp)
  exact ⟨h.1, h.2.2.2⟩

/-! # C6 supporting lemmas -/

theorem validateList_get? (xs : List JValue) (idx : Nat) (seen : List (Int × Nat))
    (m : Nat) (hm : m < xs.length) :
    (validateList xs idx seen).fst.get? m =
      some (validateEntry (idx + m) (xs.get ⟨m, hm⟩) (seenAfter (xs.take m) idx seen)).fst := by
  induction xs generalizing idx seen m with
  | nil => exact absurd hm (by simp)
  | cons y rest ih =>
    cases m with
    | zero => simp [validateList, seenAfter]
    | succ m2 =>
      have hm2 : m2 < rest.length := by simpa using hm
      have harith : idx + (m2 + 1) = idx + 1 + m2 := by omega
      simp only [validateList, List.get?_cons_succ, List.get_cons_succ, List.take_succ_cons,
        seenAfter, harith]
      exact ih (idx + 1) _ m2 hm2

theorem lookup_isSome_append (s t : List (Int × Nat)) (u : Int)
    (h : (s.lookup u).isSome = true) : ((s ++ t).lookup u).isSome = true := by
  rw [lookup_append]
  cases hs : s.lookup u
  · rw [hs] at h
    simp at h
  · simp

theorem validateEntry_seen_mono (idx : Nat) (x : JValue) (seen : List (Int × Nat)) (u : Int)
    (h : (seen.lookup u).isSome = true) :
    (((validateEntry idx x seen).snd.snd.snd).lookup u).isSome = true := by
  rw [validateEntry_seen]
  cases x with
  | obj d =>
    dsimp only
    rcases hget : getPy d "uid" with _ | w
    · simpa [hget] using h
    · rcases w with s | u2 | _ | ys | kvs
      · simpa [hget] using h
      · simp only [hget]
        cases hlk : seen.lookup u2
        · simp only [hlk]
          exact lookup_isSome_append _ _ _ h
        · simpa [hlk] using h
      · simpa [hget] using h
      · simpa [hget] using h
      · simpa [hget] using h
  | str s => exact h
  | int n => exact h
  | null => exact h
  | list ys => exact h

theorem seenAfter_lookup_isSome (xs : List JValue) (idx : Nat) (seen : List (Int × Nat))
    (u : Int)
    (h : (seen.lookup u).isSome = true ∨
      ∃ d : JDict, JValue.obj d ∈ xs ∧ getPy d "uid" = some (.int u)) :
    ((seenAfter xs idx seen).lookup u).isSome = true := by
  induction xs generalizing idx seen with
  | nil =>
    rcases h with h | ⟨d, hd, _⟩
    · exact h
    · exact absurd hd (by simp)
  | cons y rest ih =>
    rw [seenAfter]
    rcases h with h | ⟨d, hd, hu⟩
    · exact ih _ _ (Or.inl (validateEntry_seen_mono _ _ _ _ h))
    · rcases List.mem_cons.mp hd with he | hmem
      · apply ih _ _ (Or.inl ?_)
        rw [validateEntry_seen, ← he]
        dsimp only
        rw [hu]
        cases hlk : seen.lookup u
        · simp only [hlk]
          rw [lookup_append, hlk]
          simp [List.lookup]
        · simp [hlk]
      · exact ih _ _ (Or.inr ⟨d, hmem, hu⟩)

theorem string_ne_of_take_ne (a b : String) (k : Nat)
    (h : a.data.take k ≠ b.data.take k) : a ≠ b :=
  fun e => h (by rw [e])

theorem ne_dupIssueStr_of_take (s : String) (k : Nat)
    (hk : k ≤ ("ERR: duplicate uid (also in index " : String).data.length)
    (hne : s.data.take k ≠ ("ERR: duplicate uid (also in index " : String).data.take k)
    (n : Nat) : s ≠ dupIssueStr n := by
  refine string_ne_of_take_ne _ _ k ?_
  rw [dupIssueStr, String.data_append, String.data_append, List.append_assoc,
    List.take_append_of_le_length hk]
  exact hne

theorem missing_ne_dupIssueStr (m : String) (n : Nat) :
    ("ERR: Missing required fields: " ++ m) ≠ dupIssueStr n := by
  refine string_ne_of_take_ne _ _ 6 ?_
  rw [String.data_append, List.take_append_of_le_length (by decide)]
  rw [dupIssueStr, String.data_append, String.data_append, List.append_assoc,
    List.take_append_of_le_length (by decide)]
  decide

theorem mem_pair_ite_singleton {c : Prop} [Decidable c] {x s : String} {r : Nat × Nat}
    (h : x ∈ (if c then ([s], r) else (([] : List String), r)).fst) : x = s := by
  split at h
  · simpa using h
  · simp at h

theorem mem_ite_singleton {c : Prop} [Decidable c] {x s : String} {a b : Nat}
    (h : x ∈ (if c then ([s], a) else (([] : List String), b)).fst) : x = s := by
  split at h
  · simpa using h
  · simp at h

theorem mem_issMissing {app : JDict} {x : String} (h : x ∈ (issMissing app).fst) :
    ∃ m, x = "ERR: Missing required fields: " ++ m := by
  unfold issMissing at h
  dsimp only at h
  split at h
  · exact ⟨_, by simpa using h⟩
  · simp at h

theorem mem_issVerContent {app : JDict} {x : String} (h : x ∈ (issVerContent app).fst) :
    x = "ERR: version must not be empty" ∨
      x = "WARN: version format is unusual; expected like 1.2 or 1.2.3 or 1.2.3-rc1" := by
  unfold issVerContent at h
  rcases hv : getPy app "version" with _ | v
  · rw [hv] at h
    simp at h
  · rcases v with s | nn | _ | ys | kvs <;> rw [hv] at h <;> try simp at h
    split at h
    · exact Or.inl (by simpa using h)
    · split at h
      · exact Or.inr (by simpa using h)
      · simp at h

theorem mem_issNameEmpty {app : JDict} {x : String} (h : x ∈ (issNameEmpty app).fst) :
    x = "WARN: name is empty" := by
  unfold issNameEmpty at h
  rcases hv : getPy app "name" with _ | v
  · rw [hv] at h
    simp at h
  · rcases v with s | nn | _ | ys | kvs <;> rw [hv] at h <;> try simp at h
    split at h
    · simpa using h
    · simp at h

theorem mem_issAppidEmpty {app : JDict} {x : String} (h : x ∈ (issAppidEmpty app).fst) :
    x = "WARN: appid is empty" := by
  unfold issAppidEmpty at h
  rcases hv : getPy app "appid" with _ | v
  · rw [hv] at h
    simp at h
  · rcases v with s | nn | _ | ys | kvs <;> rw [hv] at h <;> try simp at h
    split at h
    · simpa using h
    · simp at h

/-- When a record's uid has not been seen before (or the record cannot
enter the duplicate check at all), its result carries no duplicate-uid
issue. -/
theorem validateEntry_not_marked (idx : Nat) (x : JValue) (seen : List (Int × Nat))
    (h : ∀ d : JDict, x = .obj d → ∀ u : Int,
      getPy d "uid" = some (.int u) → seen.lookup u = none) :
    ¬ markedDuplicate (validateEntry idx x seen).fst := by
  rintro ⟨n, hmem⟩
  cases x with
  | obj d =>
    have hdup : (issDup d idx seen).fst = [] := by
      rcases hget : getPy d "uid" with _ | w
      · simp [issDup, hget]
      · rcases w with s | u2 | _ | ys | kvs
        · simp [issDup, hget]
        · have hnone := h d rfl u2 hget
          simp [issDup, hget, hnone]
        · simp [issDup, hget]
        · simp [issDup, hget]
        · simp [issDup, hget]
    simp only [validateEntry, hdup, List.append_nil, List.mem_append] at hmem
    rcases hmem with ((((((((hm | hm) | hm) | hm) | hm) | hm) | hm) | hm) | hm)
    · obtain ⟨m, hm2⟩ := mem_issMissing hm
      exact missing_ne_dupIssueStr m n hm2.symm
    · have hm2 : dupIssueStr n = "ERR: uid must be an integer" :=
        mem_ite_singleton (by simpa [issUidType] using hm)
      exact absurd hm2.symm (ne_dupIssueStr_of_take _ 6 (by decide) (by decide) n)
    · have hm2 : dupIssueStr n = "ERR: version must be a string" :=
        mem_ite_singleton (by simpa [issVerType] using hm)
      exact absurd hm2.symm (ne_dupIssueStr_of_take _ 6 (by decide) (by decide) n)
    · have hm2 : dupIssueStr n = "ERR: name must be a string" :=
        mem_ite_singleton (by simpa [issNameType] using hm)
      exact absurd hm2.symm (ne_dupIssueStr_of_take _ 6 (by decide) (by decide) n)
    · have hm2 : dupIssueStr n = "ERR: appid must be a string" :=
        mem_ite_singleton (by simpa [issAppidType] using hm)
      exact absurd hm2.symm (ne_dupIssueStr_of_take _ 6 (by decide) (by decide) n)
    · have hm2 : dupIssueStr n =
          "ERR: updated_time must be ISO8601 with timezone, e.g. 2025-11-03T07:40:11+00:00" :=
        mem_ite_singleton (by simpa [issUpdatedTime] using hm)
      exact absurd hm2.symm (ne_dupIssueStr_of_take _ 6 (by decide) (by decide) n)
    · rcases mem_issVerContent hm with hm2 | hm2
      · exact absurd hm2.symm (ne_dupIssueStr_of_take _ 6 (by decide) (by decide) n)
      · exact absurd hm2.symm (ne_dupIssueStr_of_take _ 6 (by decide) (by decide) n)
    · have hm2 := mem_issNameEmpty hm
      exact absurd hm2.symm (ne_dupIssueStr_of_take _ 6 (by decide) (by decide) n)
    · have hm2 := mem_issAppidEmpty hm
      exact absurd hm2.symm (ne_dupIssueStr_of_take _ 6 (by decide) (by decide) n)
  | str s =>
    have hm : dupIssueStr n = "Entry is not an object/dict" := by
      simpa [validateEntry] using hmem
    exact absurd hm.symm (ne_dupIssueStr_of_take _ 2 (by decide) (by decide) n)
  | int n2 =>
    have hm : dupIssueStr n = "Entry is not an object/dict" := by
      simpa [validateEntry] using hmem
    exact absurd hm.symm (ne_dupIssueStr_of_take _ 2 (by decide) (by decide) n)
  | null =>
    have hm : dupIssueStr n = "Entry is not an object/dict" := by
      simpa [validateEntry] using hmem
    exact absurd hm.symm (ne_dupIssueStr_of_take _ 2 (by decide) (by decide) n)
  | list ys =>
    have hm : dupIssueStr n = "Entry is not an object/dict" := by
      simpa [validateEntry] using hmem
    exact absurd hm.symm (ne_dupIssueStr_of_take _ 2 (by decide) (by decide) n)

/-- When a record's integer uid is already in the first-seen map, its
result carries a duplicate-uid issue and is classified invalid. -/
theorem validateEntry_dup_marked (idx : Nat) (d : JDict) (seen : List (Int × Nat)) (u : Int)
    (hu : getPy d "uid" = some (.int u)) (hs : (seen.lookup u).isSome = true) :
    markedDuplicate (validateEntry idx (.obj d) seen).fst ∧
    (validateEntry idx (.obj d) seen).fst.status = "invalid" := by
  obtain ⟨i0, hlk⟩ := Option.isSome_iff_exists.mp hs
  have hdupf : (issDup d idx seen).fst = [dupIssueStr i0] := by
    simp [issDup, hu, hlk, dupIssueStr]
  have hdups : (issDup d idx seen).snd.fst = 1 := by
    simp [issDup, hu, hlk]
  constructor
  · exact ⟨i0, by simp [validateEntry, hdupf]⟩
  · simp [validateEntry, hdupf, hdups]

/-! # C6 -/

/-- C6: in any manifest where two records share an integer uid — record `i`
being its first occurrence and record `j` a later one — validation reports
a duplicate-uid issue (`ERR: duplicate uid (also in index ...)`) attached
to the later record `j` and classifies `j` invalid, while the earlier
record `i` receives no duplicate-uid issue. -/
theorem c6_duplicate_uid_marks_later_record
    (xs : List JValue) (i j : Nat) (hi : i < xs.length) (hj : j < xs.length)
    (hij : i < j) (di dj : JDict) (u : Int)
    (hxi : xs.get ⟨i, hi⟩ = .obj di) (hxj : xs.get ⟨j, hj⟩ = .obj dj)
    (hui : getPy di "uid" = some (.int u)) (huj : getPy dj "uid" = some (.int u))
    (hfirst : ∀ x ∈ xs.take i, ∀ d : JDict, x = .obj d →
      getPy d "uid" ≠ some (.int u)) :
    ∃ res e w, validate_apps_data (.list xs) = .ok (res, e, w) ∧
      (∃ rj, res.get? j = some rj ∧ markedDuplicate rj ∧ rj.status = "invalid") ∧
      (∀ ri, res.get? i = some ri → ¬ markedDuplicate ri) := by
  refine ⟨_, _, _, rfl, ?_, ?_⟩
  · refine ⟨_, validateList_get? xs 0 [] j hj, ?_⟩
    rw [hxj]
    have hmemTake : JValue.obj di ∈ xs.take j := by
      have hlen : i < (xs.take j).length := by
        rw [List.length_take]
        omega
      have hget2 : (xs.take j).get ⟨i, hlen⟩ = xs.get ⟨i, hi⟩ := by
        simp [List.get_eq_getElem, List.getElem_take]
      have hm0 : (xs.take j).get ⟨i, hlen⟩ ∈ xs.take j := List.get_mem _ _ _
      rw [hget2, hxi] at hm0
      exact hm0
    have hs : (((seenAfter (xs.take j) 0 []).lookup u).isSome) = true :=
      seenAfter_lookup_isSome _ _ _ _ (Or.inr ⟨di, hmemTake, hui⟩)
    exact validateEntry_dup_marked (0 + j) dj _ u huj hs
  · intro ri hri
    rw [validateList_get? xs 0 [] i hi] at hri
    have hri2 := Option.some.inj hri
    rw [← hri2]
    apply validateEntry_not_marked
    intro d he u2 hu2
    rw [hxi] at he
    injection he with he2
    subst he2
    rw [hui] at hu2
    have hu2i := Option.some.inj hu2
    injection hu2i with hu3
    subst hu3
    apply seenAfter_lookup_none
    · rfl
    · intro x hx d2 e2 hgu
      exact hfirst x hx d2 e2 hgu

/-- Witness for C6: a two-record manifest sharing uid 7. -/
theorem c6_duplicate_uid_marks_later_record_witness :
    ∃ res e w, validate_apps_data (.list [.obj [("uid", .int 7)], .obj [("uid", .int 7)]]) =
        .ok (res, e, w) ∧
      (∃ rj, res.get? 1 = some rj ∧ markedDuplicate rj ∧ rj.status = "invalid") ∧
      (∀ ri, res.get? 0 = some ri → ¬ markedDuplicate ri) :=
  c6_duplicate_uid_marks_later_record [.obj [("uid", .int 7)], .obj [("uid", .int 7)]]
    0 1 (by decide) (by decide) (by decide) [("uid", .int 7)] [("uid", .int 7)] 7
    rfl rfl rfl rfl (by simp)

/-! # C7 supporting lemmas: strip -/

theorem head_dropWhile_false (l : List Char) (c : Char) (t : List Char)
    (h : l.dropWhile isWsCh = c :: t) : isWsCh c = false := by
  induction l with
  | nil => cases h
  | cons a as ih =>
    rw [List.dropWhile_cons] at h
    split at h
    · exact ih h
    · rename_i hn
      cases h
      simpa using hn

theorem dropWhile_dropWhile (l : List Char) :
    (l.dropWhile isWsCh).dropWhile isWsCh = l.dropWhile isWsCh := by
  cases h : l.dropWhile isWsCh with
  | nil => rfl
  | cons c t =>
    rw [List.dropWhile_cons, head_dropWhile_false l c t h]
    simp

theorem dropWhile_eq_self_of_prefix (P Y : List Char)
    (hY : Y.dropWhile isWsCh = Y) (hpre : ∃ t, P ++ t = Y) :
    P.dropWhile isWsCh = P := by
  cases P with
  | nil => rfl
  | cons c rest =>
    obtain ⟨t, ht⟩ := hpre
    have hYc : Y = c :: (rest ++ t) := by rw [← ht]; rfl
    have hc : isWsCh c = false := by
      rcases hw : isWsCh c with _ | _
      · rfl
      · exfalso
        rw [hYc, List.dropWhile_cons, hw] at hY
        simp only [if_true] at hY
        have hlen : ((rest ++ t).dropWhile isWsCh).length = (rest ++ t).length + 1 := by
          rw [hY]
          simp
        have hsl : (rest ++ t).dropWhile isWsCh <:+ (rest ++ t) :=
          List.dropWhile_suffix isWsCh
        have := hsl.length_le
        omega
    rw [List.dropWhile_cons, hc]
    simp

theorem stripChars_idem (l : List Char) :
    stripChars (stripChars l) = stripChars l := by
  unfold stripChars
  have h1 : (((l.dropWhile isWsCh).reverse.dropWhile isWsCh).reverse).dropWhile isWsCh =
      ((l.dropWhile isWsCh).reverse.dropWhile isWsCh).reverse := by
    apply dropWhile_eq_self_of_prefix _ (l.dropWhile isWsCh) (dropWhile_dropWhile l)
    have hsuf : (l.dropWhile isWsCh).reverse.dropWhile isWsCh <:+
        (l.dropWhile isWsCh).reverse := List.dropWhile_suffix _
    obtain ⟨s, hs⟩ := hsuf
    refine ⟨s.reverse, ?_⟩
    have := congrArg List.reverse hs
    simpa using this
  rw [h1]
  rw [List.reverse_reverse, dropWhile_dropWhile]

theorem pstrip_idem (s : String) : pstrip (pstrip s) = pstrip s := by
  unfold pstrip
  rw [show (String.mk (stripChars s.data)).data = stripChars s.data from rfl,
    stripChars_idem]

theorem stripVal_idem (v : JValue) : stripVal (stripVal v) = stripVal v := by
  cases v <;> simp [stripVal, pstrip_idem]

theorem stripChars_eq_self (l : List Char)
    (h1 : ∀ c, l.head? = some c → isWsCh c = false)
    (h2 : ∀ c, l.getLast? = some c → isWsCh c = false) :
    stripChars l = l := by
  have e1 : l.dropWhile isWsCh = l := by
    cases l with
    | nil => rfl
    | cons a as =>
      rw [List.dropWhile_cons, h1 a rfl]
      simp
  have e2 : l.reverse.dropWhile isWsCh = l.reverse := by
    cases hr : l.reverse with
    | nil => rfl
    | cons c t =>
      have hc : isWsCh c = false := by
        apply h2
        rw [← List.head?_reverse, hr]
        rfl
      rw [List.dropWhile_cons, hc]
      simp
  unfold stripChars
  rw [e1, e2, List.reverse_reverse]

/-! # C7 supporting lemmas: digits and parsing -/

theorem isDigit_dChar (d : Nat) (h : d < 10) : isDigitCh (dChar d) = true := by
  interval_cases d <;> decide

theorem digVal_dChar (d : Nat) (h : d < 10) : digVal (dChar d) = d := by
  interval_cases d <;> decide

theorem isWs_dChar (d : Nat) (h : d < 10) : isWsCh (dChar d) = false := by
  interval_cases d <;> decide

theorem dChar_ne_Z (d : Nat) (h : d < 10) : (dChar d == 'Z') = false := by
  interval_cases d <;> decide

theorem readNat_padChars (n : Nat) :
    ∀ (acc v : Nat) (rest : List Char), v < 10 ^ n →
      readNat n acc (padChars n v ++ rest) = some (acc * 10 ^ n + v, rest) := by
  induction n with
  | zero =>
    intro acc v rest hv
    have hv0 : v = 0 := by omega
    subst hv0
    simp [padChars, readNat]
  | succ n ih =>
    intro acc v rest hv
    have hd : v / 10 ^ n % 10 < 10 := Nat.mod_lt _ (by omega)
    rw [padChars, List.cons_append, readNat, isDigit_dChar _ hd]
    simp only [if_true, digVal_dChar _ hd]
    rw [ih _ _ _ (Nat.mod_lt _ (by positivity))]
    have hdiv : v / 10 ^ n < 10 := by
      rw [Nat.div_lt_iff_lt_mul (by positivity)]
      calc v < 10 ^ (n + 1) := hv
        _ = 10 ^ n * 10 := by rw [pow_succ]
        _ = 10 * 10 ^ n := by ring
    have hmod10 : v / 10 ^ n % 10 = v / 10 ^ n := Nat.mod_eq_of_lt hdiv
    have hsum := Nat.div_add_mod v (10 ^ n)
    have hpow : 10 ^ (n + 1) = 10 ^ n * 10 := pow_succ 10 n
    have hval : (acc * 10 + v / 10 ^ n % 10) * 10 ^ n + v % 10 ^ n =
        acc * 10 ^ (n + 1) + v := by
      rw [hmod10, hpow]
      generalize hA : 10 ^ n = A at hsum ⊢
      have hr : (acc * 10 + v / A) * A = acc * (A * 10) + v / A * A := by ring
      have hcomm : v / A * A = A * (v / A) := Nat.mul_comm _ _
      omega
    rw [hval]

theorem expectCh_cons (c : Char) (rest : List Char) :
    expectCh c (c :: rest) = some rest := by
  simp [expectCh]

theorem append_restructure (A P : List Char) (s c d1 d2 : Char) :
    A ++ (s :: (P ++ c :: [d1, d2])) = (A ++ (s :: (P ++ [c, d1]))) ++ [d2] := by
  simp

theorem fmt_head (d : DT) :
    ∃ y, y < 10 ∧ (fmtDTChars d).head? = some (dChar y) :=
  ⟨d.year / 10 ^ 3 % 10, Nat.mod_lt _ (by omega), rfl⟩

theorem fmt_getLast (d : DT) :
    ∃ y, y < 10 ∧ (fmtDTChars d).getLast? = some (dChar y) := by
  refine ⟨d.off.natAbs % 60 % 10 ^ 1 / 10 ^ 0 % 10, Nat.mod_lt _ (by omega), ?_⟩
  have hp2 : padChars 2 (d.off.natAbs % 60) =
      [dChar (d.off.natAbs % 60 / 10 ^ 1 % 10),
        dChar (d.off.natAbs % 60 % 10 ^ 1 / 10 ^ 0 % 10)] := rfl
  unfold fmtDTChars
  by_cases hs : (0 : Int) ≤ d.off
  · rw [if_pos hs, hp2, append_restructure, List.getLast?_concat]
  · rw [if_neg hs, hp2, append_restructure, List.getLast?_concat]

theorem stripChars_fmt (d : DT) : stripChars (fmtDTChars d) = fmtDTChars d := by
  apply stripChars_eq_self
  · intro c hc
    obtain ⟨y, hy, he⟩ := fmt_head d
    rw [he] at hc
    cases hc
    exact isWs_dChar y hy
  · intro c hc
    obtain ⟨y, hy, he⟩ := fmt_getLast d
    rw [he] at hc
    cases hc
    exact isWs_dChar y hy

theorem zTranslate_fmt (d : DT) : zTranslate (fmtDTChars d) = fmtDTChars d := by
  unfold zTranslate
  obtain ⟨y, hy, he⟩ := fmt_getLast d
  rw [he]
  simp [dChar_ne_Z y hy]

theorem daysInMonth_le31 (y m : Nat) : daysInMonth y m ≤ 31 := by
  unfold daysInMonth
  split_ifs <;> omega

theorem readNat_padChars_nil (n acc v : Nat) (h : v < 10 ^ n) :
    readNat n acc (padChars n v) = some (acc * 10 ^ n + v, []) := by
  have := readNat_padChars n acc v [] h
  simpa using this

theorem parseFrac_plus (cs : List Char) : parseFrac ('+' :: cs) = some (0, '+' :: cs) := rfl

theorem parseFrac_minus (cs : List Char) : parseFrac ('-' :: cs) = some (0, '-' :: cs) := rfl

theorem parseFrac_dot (cs : List Char) : parseFrac ('.' :: cs) = readNat 6 0 cs := rfl

theorem parseOff_fmt_pos (off : Int) (hoff : off.natAbs ≤ 1439) (hsign : (0 : Int) ≤ off) :
    parseOff ('+' :: (padChars 2 (off.natAbs / 60) ++ ':' :: padChars 2 (off.natAbs % 60))) =
      some (off, []) := by
  have hH2 : off.natAbs / 60 < 10 ^ 2 := by omega
  have hM2 : off.natAbs % 60 < 10 ^ 2 := by omega
  have hHle : off.natAbs / 60 ≤ 23 := by omega
  have hMle : off.natAbs % 60 ≤ 59 := by omega
  have hoffAbs : off.natAbs / 60 * 60 + off.natAbs % 60 = off.natAbs := by omega
  simp only [parseOff]
  rw [readNat_padChars 2 0 (off.natAbs / 60) _ hH2]
  simp only [Nat.zero_mul, Nat.zero_add, expectCh_cons]
  rw [readNat_padChars_nil 2 0 (off.natAbs % 60) hM2]
  simp only [Nat.zero_mul, Nat.zero_add]
  rw [if_pos (by decide : (('+' == '+' : Bool) || '+' == '-') = true)]
  rw [if_pos (by simp [hHle, hMle])]
  rw [if_pos (by decide : (('+' : Char) == '+') = true)]
  have hcast : ((off.natAbs / 60 * 60 + off.natAbs % 60 : Nat) : Int) = off := by
    rw [hoffAbs]
    exact Int.natAbs_of_nonneg hsign
  rw [hcast]

theorem parseOff_fmt_neg (off : Int) (hoff : off.natAbs ≤ 1439) (hsign : ¬ (0 : Int) ≤ off) :
    parseOff ('-' :: (padChars 2 (off.natAbs / 60) ++ ':' :: padChars 2 (off.natAbs % 60))) =
      some (off, []) := by
  have hH2 : off.natAbs / 60 < 10 ^ 2 := by omega
  have hM2 : off.natAbs % 60 < 10 ^ 2 := by omega
  have hHle : off.natAbs / 60 ≤ 23 := by omega
  have hMle : off.natAbs % 60 ≤ 59 := by omega
  have hoffAbs : off.natAbs / 60 * 60 + off.natAbs % 60 = off.natAbs := by omega
  simp only [parseOff]
  rw [readNat_padChars 2 0 (off.natAbs / 60) _ hH2]
  simp only [Nat.zero_mul, Nat.zero_add, expectCh_cons]
  rw [readNat_padChars_nil 2 0 (off.natAbs % 60) hM2]
  simp only [Nat.zero_mul, Nat.zero_add]
  rw [if_pos (by decide : (('-' == '+' : Bool) || '-' == '-') = true)]
  rw [if_pos (by simp [hHle, hMle])]
  rw [if_neg (by decide : ¬ (('-' : Char) == '+') = true)]
  have hcast : -((off.natAbs / 60 * 60 + off.natAbs % 60 : Nat) : Int) = off := by
    rw [hoffAbs]
    omega
  rw [hcast]

set_option maxHeartbeats 1600000 in
theorem parseDT_fmt (d : DT) (hv : dtValid d = true) (hoff : d.off.natAbs ≤ 1439) :
    parseDT (fmtDTChars d) = some d := by
  obtain ⟨y, mo, da, hr, mi, sec, us, off⟩ := d
  have hoffb : off.natAbs ≤ 1439 := hoff
  have hvb : dtValid ⟨y, mo, da, hr, mi, sec, us, off⟩ = true := hv
  have hvv := hvb
  simp only [dtValid, Bool.and_eq_true, decide_eq_true_eq] at hvv
  obtain ⟨⟨⟨⟨⟨⟨⟨⟨⟨hy1, hy2⟩, hm1⟩, hm2⟩, hd1⟩, hd2⟩, hh⟩, hmib⟩, hsec⟩, hus⟩ := hvv
  have hda31 := daysInMonth_le31 y mo
  have hy4 : y < 10 ^ 4 := by norm_num; omega
  have hmo2 : mo < 10 ^ 2 := by norm_num; omega
  have hda2 : da < 10 ^ 2 := by norm_num; omega
  have hh2 : hr < 10 ^ 2 := by norm_num; omega
  have hmi2 : mi < 10 ^ 2 := by norm_num; omega
  have hs2 : sec < 10 ^ 2 := by norm_num; omega
  have hus6 : us < 10 ^ 6 := by norm_num; omega
  unfold parseDT fmtDTChars
  by_cases hmic : us == 0
  · have hus0 : us = 0 := by simpa using hmic
    subst hus0
    rw [if_pos hmic]
    by_cases hsign : (0 : Int) ≤ off
    · rw [if_pos hsign]
      simp only [List.append_assoc, List.cons_append, List.nil_append]
      rw [readNat_padChars 4 0 y _ hy4]
      simp only [Option.bind_eq_bind, Option.some_bind, Nat.zero_mul, Nat.zero_add,
        expectCh_cons]
      rw [readNat_padChars 2 0 mo _ hmo2]
      simp only [Option.some_bind, Nat.zero_mul, Nat.zero_add, expectCh_cons]
      rw [readNat_padChars 2 0 da _ hda2]
      simp only [Option.some_bind, Nat.zero_mul, Nat.zero_add, expectCh_cons]
      rw [readNat_padChars 2 0 hr _ hh2]
      simp only [Option.some_bind, Nat.zero_mul, Nat.zero_add, expectCh_cons]
      rw [readNat_padChars 2 0 mi _ hmi2]
      simp only [Option.some_bind, Nat.zero_mul, Nat.zero_add, expectCh_cons]
      rw [readNat_padChars 2 0 sec _ hs2]
      simp only [Option.some_bind, Nat.zero_mul, Nat.zero_add, expectCh_cons]
      rw [parseFrac_plus]
      simp only [Option.some_bind]
      rw [parseOff_fmt_pos off hoffb hsign]
      simp only [Option.some_bind]
      rw [if_pos (by simp [hvb])]
    · rw [if_neg hsign]
      simp only [List.append_assoc, List.cons_append, List.nil_append]
      rw [readNat_padChars 4 0 y _ hy4]
      simp only [Option.bind_eq_bind, Option.some_bind, Nat.zero_mul, Nat.zero_add,
        expectCh_cons]
      rw [readNat_padChars 2 0 mo _ hmo2]
      simp only [Option.some_bind, Nat.zero_mul, Nat.zero_add, expectCh_cons]
      rw [readNat_padChars 2 0 da _ hda2]
      simp only [Option.some_bind, Nat.zero_mul, Nat.zero_add, expectCh_cons]
      rw [readNat_padChars 2 0 hr _ hh2]
      simp only [Option.some_bind, Nat.zero_mul, Nat.zero_add, expectCh_cons]
      rw [readNat_padChars 2 0 mi _ hmi2]
      simp only [Option.some_bind, Nat.zero_mul, Nat.zero_add, expectCh_cons]
      rw [readNat_padChars 2 0 sec _ hs2]
      simp only [Option.some_bind, Nat.zero_mul, Nat.zero_add, expectCh_cons]
      rw [parseFrac_minus]
      simp only [Option.some_bind]
      rw [parseOff_fmt_neg off hoffb hsign]
      simp only [Option.some_bind]
      rw [if_pos (by simp [hvb])]
  · rw [if_neg hmic]
    by_cases hsign : (0 : Int) ≤ off
    · rw [if_pos hsign]
      simp only [List.append_assoc, List.cons_append, List.nil_append]
      rw [readNat_padChars 4 0 y _ hy4]
      simp only [Option.bind_eq_bind, Option.some_bind, Nat.zero_mul, Nat.zero_add,
        expectCh_cons]
      rw [readNat_padChars 2 0 mo _ hmo2]
      simp only [Option.some_bind, Nat.zero_mul, Nat.zero_add, expectCh_cons]
      rw [readNat_padChars 2 0 da _ hda2]
      simp only [Option.some_bind, Nat.zero_mul, Nat.zero_add, expectCh_cons]
      rw [readNat_padChars 2 0 hr _ hh2]
      simp only [Option.some_bind, Nat.zero_mul, Nat.zero_add, expectCh_cons]
      rw [readNat_padChars 2 0 mi _ hmi2]
      simp only [Option.some_bind, Nat.zero_mul, Nat.zero_add, expectCh_cons]
      rw [readNat_padChars 2 0 sec _ hs2]
      simp only [Option.some_bind, Nat.zero_mul, Nat.zero_add, expectCh_cons]
      rw [parseFrac_dot, readNat_padChars 6 0 us _ hus6]
      simp only [Option.some_bind, Nat.zero_mul, Nat.zero_add]
      rw [parseOff_fmt_pos off hoffb hsign]
      simp only [Option.some_bind]
      rw [if_pos (by simp [hvb])]
    · rw [if_neg hsign]
      simp only [List.append_assoc, List.cons_append, List.nil_append]
      rw [readNat_padChars 4 0 y _ hy4]
      simp only [Option.bind_eq_bind, Option.some_bind, Nat.zero_mul, Nat.zero_add,
        expectCh_cons]
      rw [readNat_padChars 2 0 mo _ hmo2]
      simp only [Option.some_bind, Nat.zero_mul, Nat.zero_add, expectCh_cons]
      rw [readNat_padChars 2 0 da _ hda2]
      simp only [Option.some_bind, Nat.zero_mul, Nat.zero_add, expectCh_cons]
      rw [readNat_padChars 2 0 hr _ hh2]
      simp only [Option.some_bind, Nat.zero_mul, Nat.zero_add, expectCh_cons]
      rw [readNat_padChars 2 0 mi _ hmi2]
      simp only [Option.some_bind, Nat.zero_mul, Nat.zero_add, expectCh_cons]
      rw [readNat_padChars 2 0 sec _ hs2]
      simp only [Option.some_bind, Nat.zero_mul, Nat.zero_add, expectCh_cons]
      rw [parseFrac_dot, readNat_padChars 6 0 us _ hus6]
      simp only [Option.some_bind, Nat.zero_mul, Nat.zero_add]
      rw [parseOff_fmt_neg off hoffb hsign]
      simp only [Option.some_bind]
      rw [if_pos (by simp [hvb])]

theorem parseOff_bound (cs rest : List Char) (off : Int)
    (h : parseOff cs = some (off, rest)) : off.natAbs ≤ 1439 := by
  cases cs with
  | nil => simp [parseOff] at h
  | cons sign rest0 =>
    simp only [parseOff] at h
    by_cases hsign : (sign == '+' || sign == '-') = true
    · rw [if_pos hsign] at h
      cases hro : readNat 2 0 rest0 with
      | none => simp [hro] at h
      | some p =>
        obtain ⟨hn, rest1⟩ := p
        simp only [hro] at h
        cases hex : expectCh ':' rest1 with
        | none => simp [hex] at h
        | some rest2 =>
          simp only [hex] at h
          cases hro2 : readNat 2 0 rest2 with
          | none => simp [hro2] at h
          | some q =>
            obtain ⟨mn, rest3⟩ := q
            simp only [hro2] at h
            by_cases hb : (hn ≤ 23 && mn ≤ 59) = true
            · rw [if_pos hb] at h
              have hb2 : hn ≤ 23 ∧ mn ≤ 59 := by simpa using hb
              simp only [Option.some.injEq, Prod.mk.injEq] at h
              obtain ⟨hoff, -⟩ := h
              subst hoff
              by_cases hps : (sign == '+') = true
              · rw [if_pos hps]
                simp only [Int.natAbs_ofNat]
                omega
              · rw [if_neg hps]
                simp only [Int.natAbs_neg, Int.natAbs_ofNat]
                omega
            · rw [if_neg hb] at h
              simp at h
    · rw [if_neg hsign] at h
      simp at h

theorem parseDT_sound (cs : List Char) (d : DT) (h : parseDT cs = some d) :
    dtValid d = true ∧ d.off.natAbs ≤ 1439 := by
  simp only [parseDT, Option.bind_eq_bind, Option.bind_eq_some] at h
  obtain ⟨⟨y, cs1⟩, h1, h⟩ := h
  simp only [Option.bind_eq_some] at h
  obtain ⟨cs2, h2, ⟨mo, cs3⟩, h3, h⟩ := h
  simp only [Option.bind_eq_some] at h
  obtain ⟨cs4, h4, ⟨da, cs5⟩, h5, h⟩ := h
  simp only [Option.bind_eq_some] at h
  obtain ⟨cs6, h6, ⟨hr, cs7⟩, h7, h⟩ := h
  simp only [Option.bind_eq_some] at h
  obtain ⟨cs8, h8, ⟨mi, cs9⟩, h9, h⟩ := h
  simp only [Option.bind_eq_some] at h
  obtain ⟨cs10, h10, ⟨sec, cs11⟩, h11, h⟩ := h
  simp only [Option.bind_eq_some] at h
  obtain ⟨⟨us, cs12⟩, h12, h⟩ := h
  simp only [Option.bind_eq_some] at h
  obtain ⟨⟨off, cs13⟩, h13, h⟩ := h
  simp only [Option.ite_none_right_eq_some, Option.some.injEq, Bool.and_eq_true] at h
  obtain ⟨⟨-, hvd⟩, hd⟩ := h
  subst hd
  exact ⟨hvd, parseOff_bound cs12 cs13 off h13⟩

theorem pstrip_fmt (d : DT) :
    pstrip (String.mk (fmtDTChars d)) = String.mk (fmtDTChars d) := by
  unfold pstrip
  rw [show (String.mk (fmtDTChars d)).data = fmtDTChars d from rfl, stripChars_fmt]

theorem norm_fmt (d : DT) (hv : dtValid d = true) (hoff : d.off.natAbs ≤ 1439) :
    _normalize_iso8601 (String.mk (fmtDTChars d)) = (true, String.mk (fmtDTChars d)) := by
  have hdata : (String.mk (fmtDTChars d)).data = fmtDTChars d := rfl
  simp only [_normalize_iso8601, hdata, stripChars_fmt, zTranslate_fmt, parseDT_fmt d hv hoff]

theorem norm_ok_shape (s out : String) (h : _normalize_iso8601 s = (true, out)) :
    ∃ d, dtValid d = true ∧ d.off.natAbs ≤ 1439 ∧ out = String.mk (fmtDTChars d) := by
  cases hp : parseDT (zTranslate (stripChars s.data)) with
  | none => simp [_normalize_iso8601, hp] at h
  | some d =>
    simp only [_normalize_iso8601, hp, Prod.mk.injEq] at h
    obtain ⟨-, hout⟩ := h
    obtain ⟨hvd, hoffd⟩ := parseDT_sound _ d hp
    exact ⟨d, hvd, hoffd, hout.symm⟩

theorem contains_true_of_mem (l : List String) (k : String) (h : k ∈ l) :
    l.contains k = true := by
  induction l with
  | nil => cases h
  | cons a t ih =>
    rcases List.mem_cons.mp h with rfl | h2
    · simp
    · simp [h2]

theorem dictGet_append_some (l1 l2 : JDict) (k : String) (v : JValue)
    (h : dictGet l1 k = some v) : dictGet (l1 ++ l2) k = some v := by
  induction l1 with
  | nil => simp [dictGet] at h
  | cons e rest ih =>
    obtain ⟨k0, v0⟩ := e
    rw [dictGet_cons] at h
    rw [List.cons_append, dictGet_cons]
    by_cases hk : k0 = k
    · rw [if_pos hk] at h
      rw [if_pos hk]
      exact h
    · rw [if_neg hk] at h
      rw [if_neg hk]
      exact ih h

theorem dictGet_append_none (l1 l2 : JDict) (k : String)
    (h : dictGet l1 k = none) : dictGet (l1 ++ l2) k = dictGet l2 k := by
  induction l1 with
  | nil => rfl
  | cons e rest ih =>
    obtain ⟨k0, v0⟩ := e
    rw [dictGet_cons] at h
    rw [List.cons_append, dictGet_cons]
    by_cases hk : k0 = k
    · rw [if_pos hk] at h
      exact Option.noConfusion h
    · rw [if_neg hk] at h
      rw [if_neg hk]
      exact ih h

theorem build_cons_none (g : String → Option JValue) (k : String) (t : List String)
    (hg : g k = none) :
    (k :: t).filterMap (fun k2 => (g k2).map (fun v => (k2, v))) =
      t.filterMap (fun k2 => (g k2).map (fun v => (k2, v))) := by
  rw [List.filterMap_cons]
  simp [hg]

theorem build_cons_some (g : String → Option JValue) (k : String) (t : List String) (v : JValue)
    (hg : g k = some v) :
    (k :: t).filterMap (fun k2 => (g k2).map (fun v => (k2, v))) =
      (k, v) :: t.filterMap (fun k2 => (g k2).map (fun v => (k2, v))) := by
  rw [List.filterMap_cons]
  simp [hg]

theorem dictGet_build (ks : List String) (g : String → Option JValue) (k0 : String) :
    dictGet (ks.filterMap (fun k => (g k).map (fun v => (k, v)))) k0 =
      if k0 ∈ ks then g k0 else none := by
  induction ks with
  | nil => simp [dictGet]
  | cons k t ih =>
    cases hg : g k with
    | none =>
      rw [build_cons_none g k t hg, ih]
      by_cases hk : k0 = k
      · subst hk
        by_cases hm : k0 ∈ t <;> simp [hm, hg]
      · by_cases hm : k0 ∈ t <;> simp [hm, hk]
    | some v =>
      rw [build_cons_some g k t v hg, dictGet_cons]
      by_cases hk : k = k0
      · rw [if_pos hk]
        have hm : k0 ∈ k :: t := by simp [hk.symm]
        rw [if_pos hm, ← hk, hg]
      · rw [if_neg hk, ih]
        have hkk : ¬ k0 = k := fun e => hk e.symm
        by_cases hm : k0 ∈ t <;> simp [hm, hkk]

theorem dictGet_mem (l : JDict) (k : String) (v : JValue)
    (h : dictGet l k = some v) : (k, v) ∈ l := by
  induction l with
  | nil => simp [dictGet] at h
  | cons e rest ih =>
    obtain ⟨k0, v0⟩ := e
    rw [dictGet_cons] at h
    by_cases hk : k0 = k
    · rw [if_pos hk] at h
      obtain rfl : v0 = v := by simpa using h
      subst hk
      simp
    · rw [if_neg hk] at h
      simp [ih h]

theorem dictGet_none_of_keys (l : JDict) (k : String)
    (h : ∀ e ∈ l, e.fst ≠ k) : dictGet l k = none := by
  induction l with
  | nil => simp [dictGet]
  | cons e rest ih =>
    obtain ⟨k0, v0⟩ := e
    have h0 : ¬ k0 = k := h (k0, v0) (by simp)
    have hr : ∀ e ∈ rest, e.fst ≠ k := fun e hm => h e (by simp [hm])
    rw [dictGet_cons, if_neg h0]
    exact ih hr

theorem mem_dictSet (l : JDict) (k : String) (v : JValue) (e : String × JValue)
    (h : e ∈ dictSet l k v) : e ∈ l ∨ e.snd = v := by
  induction l with
  | nil =>
    simp only [dictSet, List.mem_singleton] at h
    right
    rw [h]
  | cons e0 rest ih =>
    obtain ⟨k0, v0⟩ := e0
    by_cases hk : (k0 == k) = true
    · simp only [dictSet, if_pos hk] at h
      rcases List.mem_cons.mp h with h1 | h1
      · right
        rw [h1]
      · left
        simp [h1]
    · simp only [dictSet, if_neg hk] at h
      rcases List.mem_cons.mp h with h1 | h1
      · left
        simp [h1]
      · rcases ih h1 with h2 | h2
        · left
          simp [h2]
        · right
          exact h2

theorem map_fix {α : Type} (l : List α) (f : α → α) (h : ∀ x ∈ l, f x = x) :
    l.map f = l := by
  induction l with
  | nil => rfl
  | cons x rest ih =>
    simp [h x (by simp), ih (fun y hy => h y (by simp [hy]))]

theorem all_of_perm {α : Type} {l1 l2 : List α} (h : l1.Perm l2) (p : α → Bool) :
    l1.all p = l2.all p := by
  cases hb : l2.all p with
  | true =>
    rw [List.all_eq_true] at hb ⊢
    intro x hx
    exact hb x (h.mem_iff.mp hx)
  | false =>
    cases hb1 : l1.all p with
    | false => rfl
    | true =>
      rw [List.all_eq_true] at hb1
      have hall : l2.all p = true := by
        rw [List.all_eq_true]
        intro x hx
        exact hb1 x (h.mem_iff.mpr hx)
      rw [hall] at hb
      exact Bool.noConfusion hb

theorem sort_idem {α : Type} (r : α → α → Prop) [DecidableRel r] [IsTotal α r] [IsTrans α r]
    (l : List α) :
    List.insertionSort r (List.insertionSort r l) = List.insertionSort r l :=
  List.Sorted.insertionSort_eq (List.sorted_insertionSort r l)

theorem filterMap_congr_mem {α β : Type} (l : List α) (f g : α → Option β)
    (h : ∀ x ∈ l, f x = g x) : l.filterMap f = l.filterMap g := by
  induction l with
  | nil => rfl
  | cons a t ih =>
    rw [List.filterMap_cons, List.filterMap_cons, h a (by simp),
      ih (fun x hx => h x (by simp [hx]))]

theorem mem_build (ks : List String) (g : String → Option JValue) (e : String × JValue)
    (h : e ∈ ks.filterMap (fun k => (g k).map (fun v => (k, v)))) :
    e.fst ∈ ks ∧ g e.fst = some e.snd := by
  rcases List.mem_filterMap.mp h with ⟨k, hk, hfk⟩
  cases hg : g k with
  | none =>
    rw [hg] at hfk
    simp at hfk
  | some v =>
    rw [hg] at hfk
    simp only [Option.map_some', Option.some.injEq] at hfk
    subst hfk
    exact ⟨hk, hg⟩

theorem stripEntries_stripped (app : JDict) (e : String × JValue) (h : e ∈ stripEntries app) :
    stripVal e.snd = e.snd := by
  simp only [stripEntries, List.mem_map] at h
  obtain ⟨e0, -, rfl⟩ := h
  exact stripVal_idem e0.snd

theorem normTimestamp_stripped (n : JDict) (hn : ∀ e ∈ n, stripVal e.snd = e.snd)
    (e : String × JValue) (h : e ∈ normTimestamp n) : stripVal e.snd = e.snd := by
  unfold normTimestamp at h
  cases hget : dictGet n "updated_time" with
  | none =>
    rw [hget] at h
    exact hn e h
  | some v =>
    cases v with
    | str s =>
      simp only [hget] at h
      by_cases hf : (_normalize_iso8601 s).fst = true
      · rw [if_pos hf] at h
        rcases mem_dictSet _ _ _ _ h with h2 | h2
        · exact hn e h2
        · have hns : _normalize_iso8601 s = (true, (_normalize_iso8601 s).snd) := by
            rw [← hf]
          obtain ⟨d, hvd, hoffd, hout⟩ := norm_ok_shape s _ hns
          rw [h2, hout]
          simp [stripVal, pstrip_fmt]
      · rw [if_neg hf] at h
        exact hn e h
    | int n2 =>
      rw [hget] at h
      exact hn e h
    | null =>
      rw [hget] at h
      exact hn e h
    | list xs =>
      rw [hget] at h
      exact hn e h
    | obj kvs =>
      rw [hget] at h
      exact hn e h

theorem rebuild_subset (n2 : JDict) (e : String × JValue) (h : e ∈ rebuildEntry n2) :
    e ∈ n2 := by
  unfold rebuildEntry at h
  rcases List.mem_append.mp h with h1 | h1
  · have hb := mem_build keyOrderList (fun k => dictGet n2 k) e h1
    have := dictGet_mem n2 e.fst e.snd hb.2
    simpa using this
  · have h2 := (List.perm_insertionSort extraLe _).mem_iff.mp h1
    exact (List.mem_filter.mp h2).1

theorem stripEntries_fix (l : JDict) (h : ∀ e ∈ l, stripVal e.snd = e.snd) :
    stripEntries l = l := by
  unfold stripEntries
  apply map_fix
  intro e he
  rw [h e he]

theorem getRebuild (n2 : JDict) (k : String) (hk : k ∈ keyOrderList) :
    dictGet (rebuildEntry n2) k = dictGet n2 k := by
  unfold rebuildEntry
  cases hg : dictGet n2 k with
  | some v =>
    apply dictGet_append_some
    rw [dictGet_build, if_pos hk, hg]
  | none =>
    rw [dictGet_append_none]
    · apply dictGet_none_of_keys
      intro e he hek
      have hmem := (List.perm_insertionSort extraLe _).mem_iff.mp he
      have hpe := List.of_mem_filter hmem
      rw [hek, contains_true_of_mem keyOrderList k hk] at hpe
      simp at hpe
    · rw [dictGet_build, if_pos hk, hg]

theorem normTimestamp_fix (m : JDict)
    (hq : ∀ s, dictGet m "updated_time" = some (.str s) →
      (_normalize_iso8601 s).fst = true → _normalize_iso8601 s = (true, s)) :
    normTimestamp m = m := by
  unfold normTimestamp
  cases hg : dictGet m "updated_time" with
  | none => rfl
  | some v =>
    cases v with
    | str s =>
      show (if (_normalize_iso8601 s).fst = true then
          dictSet m "updated_time" (JValue.str (_normalize_iso8601 s).snd) else m) = m
      by_cases hf : (_normalize_iso8601 s).fst = true
      · have hns := hq s hg hf
        rw [hns]
        exact (if_pos rfl).trans (dictSet_of_get_self m _ _ hg)
      · exact if_neg hf
    | int n2 => rfl
    | null => rfl
    | list xs => rfl
    | obj kvs => rfl

theorem normTimestamp_norm_prop (n : JDict) (s : String)
    (hg : dictGet (normTimestamp n) "updated_time" = some (.str s))
    (hf : (_normalize_iso8601 s).fst = true) :
    _normalize_iso8601 s = (true, s) := by
  cases hv0 : dictGet n "updated_time" with
  | none =>
    have hn2 : normTimestamp n = n := by
      unfold normTimestamp
      rw [hv0]
    rw [hn2, hv0] at hg
    exact Option.noConfusion hg
  | some v =>
    cases v with
    | str s0 =>
      by_cases hf0 : (_normalize_iso8601 s0).fst = true
      · have hn2 : normTimestamp n =
            dictSet n "updated_time" (JValue.str (_normalize_iso8601 s0).snd) := by
          unfold normTimestamp
          rw [hv0]
          show (if (_normalize_iso8601 s0).fst = true then
              dictSet n "updated_time" (JValue.str (_normalize_iso8601 s0).snd) else n) = _
          exact if_pos hf0
        rw [hn2, dictGet_dictSet_self] at hg
        have hs : (_normalize_iso8601 s0).snd = s := by simpa using hg
        have hns0 : _normalize_iso8601 s0 = (true, s) := by
          rw [← hs, ← hf0]
        obtain ⟨d, hvd, hoffd, hout⟩ := norm_ok_shape s0 s hns0
        rw [hout]
        exact norm_fmt d hvd hoffd
      · have hn2 : normTimestamp n = n := by
          unfold normTimestamp
          rw [hv0]
          show (if (_normalize_iso8601 s0).fst = true then
              dictSet n "updated_time" (JValue.str (_normalize_iso8601 s0).snd) else n) = n
          exact if_neg hf0
        rw [hn2, hv0] at hg
        have hs : s0 = s := by simpa using hg
        subst hs
        exact absurd hf hf0
    | int n2 =>
      have hn2 : normTimestamp n = n := by
        unfold normTimestamp
        rw [hv0]
      rw [hn2, hv0] at hg
      simp at hg
    | null =>
      have hn2 : normTimestamp n = n := by
        unfold normTimestamp
        rw [hv0]
      rw [hn2, hv0] at hg
      simp at hg
    | list xs =>
      have hn2 : normTimestamp n = n := by
        unfold normTimestamp
        rw [hv0]
      rw [hn2, hv0] at hg
      simp at hg
    | obj kvs =>
      have hn2 : normTimestamp n = n := by
        unfold normTimestamp
        rw [hv0]
      rw [hn2, hv0] at hg
      simp at hg

theorem normTimestamp_rebuild (n : JDict) :
    normTimestamp (rebuildEntry (normTimestamp n)) = rebuildEntry (normTimestamp n) := by
  apply normTimestamp_fix
  intro s hg hf
  rw [getRebuild _ _ (by decide)] at hg
  exact normTimestamp_norm_prop n s hg hf

theorem rebuild_fix (n2 : JDict) : rebuildEntry (rebuildEntry n2) = rebuildEntry n2 := by
  have hbase :
      keyOrderList.filterMap (fun k => (dictGet (rebuildEntry n2) k).map (fun v => (k, v))) =
        keyOrderList.filterMap (fun k => (dictGet n2 k).map (fun v => (k, v))) :=
    filterMap_congr_mem _ _ _ (fun k hk => by rw [getRebuild n2 k hk])
  have hfilter : (rebuildEntry n2).filter (fun e => !keyOrderList.contains e.fst) =
      List.insertionSort extraLe (n2.filter (fun e => !keyOrderList.contains e.fst)) := by
    unfold rebuildEntry
    rw [List.filter_append]
    have h1 : (keyOrderList.filterMap (fun k => (dictGet n2 k).map (fun v => (k, v)))).filter
        (fun e => !keyOrderList.contains e.fst) = [] := by
      rw [List.filter_eq_nil_iff]
      intro e he
      have hm := (mem_build keyOrderList (fun k => dictGet n2 k) e he).1
      simpa using hm
    have h2 : (List.insertionSort extraLe
          (n2.filter (fun e => !keyOrderList.contains e.fst))).filter
        (fun e => !keyOrderList.contains e.fst) =
        List.insertionSort extraLe (n2.filter (fun e => !keyOrderList.contains e.fst)) := by
      rw [List.filter_eq_self]
      intro a ha
      exact (List.mem_filter.mp ((List.perm_insertionSort extraLe _).mem_iff.mp ha)).2
    rw [h1, h2, List.nil_append]
  calc rebuildEntry (rebuildEntry n2)
      = keyOrderList.filterMap (fun k => (dictGet (rebuildEntry n2) k).map (fun v => (k, v))) ++
          List.insertionSort extraLe
            ((rebuildEntry n2).filter (fun e => !keyOrderList.contains e.fst)) := rfl
    _ = keyOrderList.filterMap (fun k => (dictGet n2 k).map (fun v => (k, v))) ++
          List.insertionSort extraLe (List.insertionSort extraLe
            (n2.filter (fun e => !keyOrderList.contains e.fst))) := by rw [hbase, hfilter]
    _ = keyOrderList.filterMap (fun k => (dictGet n2 k).map (fun v => (k, v))) ++
          List.insertionSort extraLe (n2.filter (fun e => !keyOrderList.contains e.fst)) := by
          rw [sort_idem]
    _ = rebuildEntry n2 := rfl

theorem reformatEntry_idem (app : JDict) :
    reformatEntry (reformatEntry app) = reformatEntry app := by
  unfold reformatEntry
  have hstripped : ∀ e ∈ rebuildEntry (normTimestamp (stripEntries app)),
      stripVal e.snd = e.snd := by
    intro e he
    exact normTimestamp_stripped (stripEntries app)
      (fun e2 he2 => stripEntries_stripped app e2 he2) e (rebuild_subset _ e he)
  rw [stripEntries_fix _ hstripped, normTimestamp_rebuild (stripEntries app), rebuild_fix]

theorem sortRef_map_fix (r : JDict → JDict → Prop) [DecidableRel r] (apps : List JDict) :
    (List.insertionSort r (apps.map reformatEntry)).map reformatEntry =
      List.insertionSort r (apps.map reformatEntry) := by
  apply map_fix
  intro x hx
  have hx2 : x ∈ apps.map reformatEntry := (List.perm_insertionSort r _).mem_iff.mp hx
  obtain ⟨a, -, rfl⟩ := List.mem_map.mp hx2
  exact reformatEntry_idem a

/-- C7: format_apps_for_readability is idempotent: running the reformat over
its own output returns it unchanged, in both the name and the uid sort
orders — trimming, timestamp normalization, key reordering and record
sorting are each fixed points on reformatted output. -/
theorem c7_reformat_idempotent (apps : List JDict) (sortBy : String) :
    format_apps_for_readability (format_apps_for_readability apps sortBy) sortBy =
      format_apps_for_readability apps sortBy := by
  simp only [format_apps_for_readability]
  by_cases hs : (sortBy == "uid") = true
  · simp only [if_pos hs]
    by_cases hall : ((apps.map reformatEntry).all
        fun d => (pyIntConv (getPy d "uid")).isSome) = true
    · simp only [if_pos hall]
      rw [sortRef_map_fix (keyLe entKeyUid) apps,
        all_of_perm (List.perm_insertionSort (keyLe entKeyUid) (apps.map reformatEntry)) _,
        if_pos hall, sort_idem]
    · simp only [if_neg hall]
      rw [sortRef_map_fix (keyLe (fun d => nameKeyL d)) apps,
        all_of_perm (List.perm_insertionSort (keyLe (fun d => nameKeyL d))
          (apps.map reformatEntry)) _,
        if_neg hall, sort_idem]
  · simp only [if_neg hs]
    rw [sortRef_map_fix (keyLe entKeyName) apps, sort_idem]

/-! # C8: backup creation and rotation -/

theorem filter_ne_id (l : List (String × FileData)) (p : String)
    (h : ∀ e ∈ l, e.fst ≠ p) : l.filter (fun e => e.fst != p) = l := by
  rw [List.filter_eq_self]
  intro a ha
  simpa using h a ha

theorem foldl_remove_filter (l : List (String × FileData)) (fs : FS) :
    l.foldl (fun acc e => fsRemove acc e.fst) fs =
      fs.filter (fun x => !l.any (fun e => e.fst == x.fst)) := by
  induction l generalizing fs with
  | nil => simp
  | cons r l2 ih =>
    rw [List.foldl_cons, ih]
    unfold fsRemove
    rw [List.filter_filter]
    apply List.filter_congr
    intro x hx
    simp only [List.any_cons, Bool.not_or]
    rw [Bool.and_comm]
    congr 1
    by_cases hxr : x.fst = r.fst
    · simp [hxr, bne]
    · have hrx : ¬ r.fst = x.fst := fun e => hxr e.symm
      simp [bne, hxr, hrx]

theorem bakName_lead (target : String) (x : Nat) :
    strLeads (target ++ ".bak-") (bakName target x) = true :=
  strLeads_append (target ++ ".bak-") (tsName x)

theorem bakName_ne_target (target : String) (x : Nat) : bakName target x ≠ target := by
  intro h
  have h2 := bakName_lead target x
  rw [h, strLeads_bakLead_self] at h2
  exact Bool.noConfusion h2

theorem bakName_inj (target : String) (a b : Nat) (ha : a < 10 ^ 14) (hb : b < 10 ^ 14)
    (h : bakName target a = bakName target b) : a = b := by
  have hd : (bakName target a).data = (bakName target b).data := congrArg String.data h
  simp only [bakName, String.data_append, List.append_assoc] at hd
  have h2 := List.append_cancel_left hd
  have h3 := List.append_cancel_left h2
  have hd2 : padChars 14 a = padChars 14 b := h3
  have r1 := readNat_padChars_nil 14 0 a ha
  have r2 := readNat_padChars_nil 14 0 b hb
  rw [hd2] at r1
  have r3 := r1.symm.trans r2
  simp only [Option.some.injEq, Prod.mk.injEq] at r3
  omega

theorem nodup_take_drop_ne (baks : List (String × FileData)) (m : Nat)
    (hnd : (baks.map Prod.fst).Nodup) :
    ∀ x ∈ baks.take m, ∀ e ∈ baks.drop m, e.fst ≠ x.fst := by
  intro x hx e he heq
  rw [← List.take_append_drop m baks, List.map_append] at hnd
  have hdisj := List.disjoint_of_nodup_append hnd
  exact hdisj (List.mem_map_of_mem Prod.fst hx) (heq ▸ List.mem_map_of_mem Prod.fst he)

theorem filter_not_any_keep (l dropped : List (String × FileData))
    (h : ∀ x ∈ l, ∀ e ∈ dropped, e.fst ≠ x.fst) :
    l.filter (fun x => !dropped.any (fun e => e.fst == x.fst)) = l := by
  rw [List.filter_eq_self]
  intro a ha
  show (!dropped.any (fun e => e.fst == a.fst)) = true
  rw [Bool.not_eq_true', List.any_eq_false]
  intro e he
  simp [h a ha e he]

theorem filter_any_self_nil (dropped : List (String × FileData)) :
    dropped.filter (fun x => !dropped.any (fun e => e.fst == x.fst)) = [] := by
  rw [List.filter_eq_nil_iff]
  intro a ha
  show ¬ (!dropped.any (fun e => e.fst == a.fst)) = true
  rw [Bool.not_eq_true', List.any_eq_false]
  intro hall
  exact hall a ha (by simp)

theorem filter_drop_take (l : List (String × FileData)) (m : Nat)
    (hnd : (l.map Prod.fst).Nodup) :
    l.filter (fun x => !(l.drop m).any (fun e => e.fst == x.fst)) = l.take m := by
  set d := l.drop m with hd
  conv_lhs => rw [show l = l.take m ++ d from by rw [hd]; exact (List.take_append_drop m l).symm]
  rw [List.filter_append, filter_not_any_keep, filter_any_self_nil, List.append_nil]
  rw [hd]
  exact nodup_take_drop_ne l m hnd

theorem create_backup_step (target : String) (m now : Nat) (c : String) (tPrev : Nat)
    (baks : List (String × FileData))
    (hbaks : ∀ e ∈ baks, strLeads (target ++ ".bak-") e.fst = true)
    (hmt : ∀ e ∈ baks, e.snd.mtime ≤ tPrev)
    (hfresh : ∀ e ∈ baks, e.fst ≠ bakName target now)
    (hsorted : List.Sorted (fun a b : String × FileData => b.snd.mtime ≤ a.snd.mtime) baks)
    (hnd : (baks.map Prod.fst).Nodup) :
    create_backup ((target, ⟨c, tPrev⟩) :: baks) target (m + 1) now .fnone =
      (bakName target now, ⟨c, tPrev⟩) :: (target, ⟨c, tPrev⟩) :: baks.take m := by
  have hk0 : ((m + 1 : Nat) == 0) = false := by simp
  have hfb : (WFault.fnone == WFault.backupCopy) = false := by decide
  have hlk : fsLookup ((target, (⟨c, tPrev⟩ : FileData)) :: baks) target = some ⟨c, tPrev⟩ := by
    rw [fsLookup_cons]
    simp
  have hfi : ((target, (⟨c, tPrev⟩ : FileData)) :: baks).filter
      (fun e => e.fst != bakName target now) = (target, ⟨c, tPrev⟩) :: baks := by
    apply filter_ne_id
    intro e he
    rcases List.mem_cons.mp he with rfl | hm
    · exact fun h2 => bakName_ne_target target now h2.symm
    · exact hfresh e hm
  simp only [create_backup, hk0, Bool.false_eq_true, if_false, hlk, hfb]
  rw [show target ++ ".bak-" ++ tsName now = bakName target now from rfl]
  simp only [fsWrite]
  rw [hfi]
  simp only [rotate_backups]
  have hfb2 : ((bakName target now, (⟨c, tPrev⟩ : FileData)) ::
      (target, (⟨c, tPrev⟩ : FileData)) :: baks).filter
      (fun e => strLeads (target ++ ".bak-") e.fst) =
      (bakName target now, ⟨c, tPrev⟩) :: baks := by
    rw [List.filter_cons, if_pos (bakName_lead target now), List.filter_cons,
      if_neg (by simp [strLeads_bakLead_self]), List.filter_eq_self.mpr hbaks]
  have hsort2 : List.Sorted (fun a b : String × FileData => b.snd.mtime ≤ a.snd.mtime)
      ((bakName target now, (⟨c, tPrev⟩ : FileData)) :: baks) := by
    rw [List.sorted_cons]
    exact ⟨fun b hb => hmt b hb, hsorted⟩
  rw [hfb2, List.Sorted.insertionSort_eq hsort2, List.drop_succ_cons, foldl_remove_filter]
  have hc1 : (!(baks.drop m).any (fun e => e.fst == bakName target now)) = true := by
    rw [Bool.not_eq_true', List.any_eq_false]
    intro e he
    simp [hfresh e (List.mem_of_mem_drop he)]
  have hc2 : (!(baks.drop m).any (fun e => e.fst == target)) = true := by
    rw [Bool.not_eq_true', List.any_eq_false]
    intro e he
    intro hbeq
    have heq : e.fst = target := by simpa using hbeq
    have hl := hbaks e (List.mem_of_mem_drop he)
    rw [heq, strLeads_bakLead_self] at hl
    exact Bool.noConfusion hl
  rw [List.filter_cons, if_pos hc1, List.filter_cons, if_pos hc2, filter_drop_take baks m hnd]

theorem atomic_write_step (target tmp2 : String) (data : JValue) (m now : Nat)
    (c : String) (tPrev : Nat) (baks : List (String × FileData))
    (htmpne : tmp2 ≠ target)
    (htmpbak : strLeads (target ++ ".bak-") tmp2 = false)
    (hbaks : ∀ e ∈ baks, strLeads (target ++ ".bak-") e.fst = true)
    (hmt : ∀ e ∈ baks, e.snd.mtime ≤ tPrev)
    (hfresh : ∀ e ∈ baks, e.fst ≠ bakName target now)
    (hsorted : List.Sorted (fun a b : String × FileData => b.snd.mtime ≤ a.snd.mtime) baks)
    (hnd : (baks.map Prod.fst).Nodup) :
    atomic_write_json ((target, ⟨c, tPrev⟩) :: baks) target tmp2 data (m + 1) now .fnone =
      { fs := (target, ⟨jser data ++ "\n", now⟩) ::
          (bakName target now, ⟨c, tPrev⟩) :: baks.take m,
        ok := true } := by
  have hcb := create_backup_step target m now c tPrev baks hbaks hmt hfresh hsorted hnd
  have hne0 : ∀ e ∈ (bakName target now, (⟨c, tPrev⟩ : FileData)) ::
      (target, (⟨c, tPrev⟩ : FileData)) :: baks.take m, e.fst ≠ tmp2 := by
    intro e he
    rcases List.mem_cons.mp he with rfl | he2
    · intro h2
      have h2b : bakName target now = tmp2 := h2
      have hl := bakName_lead target now
      rw [h2b, htmpbak] at hl
      exact Bool.noConfusion hl
    rcases List.mem_cons.mp he2 with rfl | he3
    · exact fun h2 => htmpne h2.symm
    · intro h2
      have hl := hbaks e (List.take_subset m baks he3)
      rw [h2, htmpbak] at hl
      exact Bool.noConfusion hl
  have hnet : ∀ e ∈ (bakName target now, (⟨c, tPrev⟩ : FileData)) :: baks.take m,
      e.fst ≠ target := by
    intro e he
    rcases List.mem_cons.mp he with rfl | he2
    · exact bakName_ne_target target now
    · intro h2
      have hl := hbaks e (List.take_subset m baks he2)
      rw [h2, strLeads_bakLead_self] at hl
      exact Bool.noConfusion hl
  have e1 : fsWrite ((bakName target now, (⟨c, tPrev⟩ : FileData)) ::
      (target, (⟨c, tPrev⟩ : FileData)) :: baks.take m) tmp2 "" now =
      (tmp2, ⟨"", now⟩) :: (bakName target now, ⟨c, tPrev⟩) ::
        (target, ⟨c, tPrev⟩) :: baks.take m := by
    simp only [fsWrite]
    rw [filter_ne_id _ _ hne0]
  have e2 : fsWrite ((tmp2, (⟨"", now⟩ : FileData)) ::
      (bakName target now, (⟨c, tPrev⟩ : FileData)) ::
      (target, (⟨c, tPrev⟩ : FileData)) :: baks.take m) tmp2 (jser data ++ "\n") now =
      (tmp2, ⟨jser data ++ "\n", now⟩) :: (bakName target now, ⟨c, tPrev⟩) ::
        (target, ⟨c, tPrev⟩) :: baks.take m := by
    simp only [fsWrite]
    rw [List.filter_cons]
    simp only [bne_self_eq_false, Bool.false_eq_true, if_false]
    rw [filter_ne_id _ _ hne0]
  have e3 : fsRemove ((tmp2, (⟨jser data ++ "\n", now⟩ : FileData)) ::
      (bakName target now, (⟨c, tPrev⟩ : FileData)) ::
      (target, (⟨c, tPrev⟩ : FileData)) :: baks.take m) tmp2 =
      (bakName target now, ⟨c, tPrev⟩) :: (target, ⟨c, tPrev⟩) :: baks.take m := by
    unfold fsRemove
    rw [List.filter_cons]
    simp only [bne_self_eq_false, Bool.false_eq_true, if_false]
    rw [filter_ne_id _ _ hne0]
  have e4 : fsWrite ((bakName target now, (⟨c, tPrev⟩ : FileData)) ::
      (target, (⟨c, tPrev⟩ : FileData)) :: baks.take m) target (jser data ++ "\n") now =
      (target, ⟨jser data ++ "\n", now⟩) :: (bakName target now, ⟨c, tPrev⟩) ::
        baks.take m := by
    simp only [fsWrite]
    rw [List.filter_cons, if_pos (by simp [bakName_ne_target target now]), List.filter_cons]
    simp only [bne_self_eq_false, Bool.false_eq_true, if_false]
    rw [filter_ne_id _ _ (fun e he => hnet e (List.mem_cons.mpr (Or.inr he)))]
  have hk1 : ((m + 1 : Nat) != 0) = true := by simp
  simp only [atomic_write_json, hk1, if_true]
  rw [hcb, e1, e2, e3, e4]

theorem atomic_write_keep0 (target tmp2 : String) (data : JValue) (now : Nat)
    (c : String) (tPrev : Nat) (htmpne : tmp2 ≠ target) :
    atomic_write_json [(target, ⟨c, tPrev⟩)] target tmp2 data 0 now .fnone =
      { fs := [(target, ⟨jser data ++ "\n", now⟩)], ok := true } := by
  have hne : ∀ e ∈ [((target, (⟨c, tPrev⟩ : FileData)))], e.fst ≠ tmp2 := by
    intro e he
    rw [List.mem_singleton] at he
    subst he
    exact fun h2 => htmpne h2.symm
  have e1 : fsWrite [(target, (⟨c, tPrev⟩ : FileData))] tmp2 "" now =
      (tmp2, ⟨"", now⟩) :: [(target, ⟨c, tPrev⟩)] := by
    simp only [fsWrite]
    rw [filter_ne_id _ _ hne]
  have e2 : fsWrite ((tmp2, (⟨"", now⟩ : FileData)) :: [(target, (⟨c, tPrev⟩ : FileData))])
      tmp2 (jser data ++ "\n") now =
      (tmp2, ⟨jser data ++ "\n", now⟩) :: [(target, ⟨c, tPrev⟩)] := by
    simp only [fsWrite]
    rw [List.filter_cons]
    simp only [bne_self_eq_false, Bool.false_eq_true, if_false]
    rw [filter_ne_id _ _ hne]
  have e3 : fsRemove ((tmp2, (⟨jser data ++ "\n", now⟩ : FileData)) ::
      [(target, (⟨c, tPrev⟩ : FileData))]) tmp2 = [(target, ⟨c, tPrev⟩)] := by
    unfold fsRemove
    rw [List.filter_cons]
    simp only [bne_self_eq_false, Bool.false_eq_true, if_false]
    rw [filter_ne_id _ _ hne]
  have e4 : fsWrite [(target, (⟨c, tPrev⟩ : FileData))] target (jser data ++ "\n") now =
      [(target, ⟨jser data ++ "\n", now⟩)] := by
    simp only [fsWrite]
    rw [List.filter_cons]
    simp only [bne_self_eq_false, Bool.false_eq_true, if_false, List.filter_nil]
  simp only [atomic_write_json]
  rw [if_neg (show ¬ ((0 : Nat) != 0) = true by simp), e1, e2, e3, e4]

theorem bakEntries_facts (target : String) (ds : Nat → JValue) (m : Nat) (t : Nat → Nat)
    (c0 : String) (K : Nat)
    (hmono : ∀ i j, i < j → j ≤ K → t i < t j)
    (hbound : ∀ i, i ≤ K → t i < 10 ^ 14) :
    ∀ k, k ≤ K →
      (bakEntries target ds (m + 1) t c0 k).length = min k (m + 1) ∧
      List.Sorted (fun a b : String × FileData => b.snd.mtime ≤ a.snd.mtime)
        (bakEntries target ds (m + 1) t c0 k) ∧
      ((bakEntries target ds (m + 1) t c0 k).map Prod.fst).Nodup ∧
      ∀ e ∈ bakEntries target ds (m + 1) t c0 k,
        ∃ i, 1 ≤ i ∧ i ≤ k ∧
          e = (bakName target (t i), ⟨seqContent ds c0 (i - 1), t (i - 1)⟩) := by
  intro k
  induction k with
  | zero =>
    intro h0
    refine ⟨by simp [bakEntries], by simp [bakEntries], by simp [bakEntries], ?_⟩
    intro e he
    simp [bakEntries] at he
  | succ k ih =>
    intro hk1
    have hk : k ≤ K := by omega
    obtain ⟨ihlen, ihsort, ihnd, ihshape⟩ := ih hk
    have hstep : bakEntries target ds (m + 1) t c0 (k + 1) =
        (bakName target (t (k + 1)), ⟨seqContent ds c0 k, t k⟩) ::
          (bakEntries target ds (m + 1) t c0 k).take m := rfl
    rw [hstep]
    refine ⟨?_, ?_, ?_, ?_⟩
    · simp only [List.length_cons, List.length_take, ihlen]
      omega
    · rw [List.sorted_cons]
      constructor
      · intro b hb
        obtain ⟨i, hi1, hik, rfl⟩ := ihshape b (List.take_subset m _ hb)
        have hlt : i - 1 < k := by omega
        exact Nat.le_of_lt (hmono (i - 1) k hlt hk)
      · exact List.Pairwise.sublist (List.take_sublist m _) ihsort
    · simp only [List.map_cons]
      rw [List.nodup_cons]
      constructor
      · intro hmem
        rw [List.map_take] at hmem
        obtain ⟨e, heB, hefst⟩ := List.mem_map.mp (List.take_subset m _ hmem)
        obtain ⟨i, hi1, hik, rfl⟩ := ihshape e heB
        have hti : t i = t (k + 1) :=
          bakName_inj target _ _ (hbound i (by omega)) (hbound (k + 1) hk1) hefst
        have := hmono i (k + 1) (by omega) hk1
        omega
      · rw [List.map_take]
        exact List.Nodup.sublist (List.take_sublist m _) ihnd
    · intro e he
      rcases List.mem_cons.mp he with rfl | he2
      · exact ⟨k + 1, by omega, Nat.le_refl _, rfl⟩
      · obtain ⟨i, hi1, hik, rfl⟩ := ihshape e (List.take_subset m _ he2)
        exact ⟨i, hi1, by omega, rfl⟩

theorem writeSeq_canonical (target : String) (tmp : Nat → String) (ds : Nat → JValue)
    (m : Nat) (t : Nat → Nat) (c0 : String) (K : Nat)
    (hmono : ∀ i j, i < j → j ≤ K → t i < t j)
    (hbound : ∀ i, i ≤ K → t i < 10 ^ 14)
    (htmpne : ∀ i, tmp i ≠ target)
    (htmpbak : ∀ i, strLeads (target ++ ".bak-") (tmp i) = false) :
    ∀ k, k ≤ K →
      writeSeq target tmp ds (m + 1) t c0 k =
        (target, ⟨seqContent ds c0 k, t k⟩) :: bakEntries target ds (m + 1) t c0 k := by
  intro k
  induction k with
  | zero =>
    intro h0
    rfl
  | succ k ih =>
    intro hk1
    have hk : k ≤ K := by omega
    obtain ⟨hlen, hsorted, hnd, hshape⟩ := bakEntries_facts target ds m t c0 K hmono hbound k hk
    have hb : ∀ e ∈ bakEntries target ds (m + 1) t c0 k,
        strLeads (target ++ ".bak-") e.fst = true := by
      intro e he
      obtain ⟨i, -, -, rfl⟩ := hshape e he
      exact bakName_lead target (t i)
    have hm2 : ∀ e ∈ bakEntries target ds (m + 1) t c0 k, e.snd.mtime ≤ t k := by
      intro e he
      obtain ⟨i, hi1, hik, rfl⟩ := hshape e he
      have hlt : i - 1 < k := by omega
      exact Nat.le_of_lt (hmono (i - 1) k hlt hk)
    have hf : ∀ e ∈ bakEntries target ds (m + 1) t c0 k,
        e.fst ≠ bakName target (t (k + 1)) := by
      intro e he
      obtain ⟨i, hi1, hik, rfl⟩ := hshape e he
      intro h2
      have hti : t i = t (k + 1) :=
        bakName_inj target _ _ (hbound i (by omega)) (hbound (k + 1) hk1) h2
      have := hmono i (k + 1) (by omega) hk1
      omega
    simp only [writeSeq]
    rw [ih hk, atomic_write_step target (tmp (k + 1)) (ds (k + 1)) m (t (k + 1))
      (seqContent ds c0 k) (t k) (bakEntries target ds (m + 1) t c0 k)
      (htmpne (k + 1)) (htmpbak (k + 1)) hb hm2 hf hsorted hnd]
    rfl

theorem writeSeq_keep0 (target : String) (tmp : Nat → String) (ds : Nat → JValue)
    (t : Nat → Nat) (c0 : String)
    (htmpne : ∀ i, tmp i ≠ target) :
    ∀ k, writeSeq target tmp ds 0 t c0 k = [(target, ⟨seqContent ds c0 k, t k⟩)] := by
  intro k
  induction k with
  | zero => rfl
  | succ k ih =>
    simp only [writeSeq]
    rw [ih, atomic_write_keep0 target (tmp (k + 1)) (ds (k + 1)) (t (k + 1))
      (seqContent ds c0 k) (t k) (htmpne (k + 1))]
    rfl

theorem filter_bak_canonical (target : String) (entries : List (String × FileData))
    (c2 : String) (t2 : Nat)
    (hb : ∀ e ∈ entries, strLeads (target ++ ".bak-") e.fst = true) :
    ((target, (⟨c2, t2⟩ : FileData)) :: entries).filter
      (fun e => strLeads (target ++ ".bak-") e.fst) = entries := by
  rw [List.filter_cons, if_neg (by simp [strLeads_bakLead_self]), List.filter_eq_self.mpr hb]

theorem bakEntries_map_fst (target : String) (ds : Nat → JValue) (m : Nat) (t : Nat → Nat)
    (c0 : String) : ∀ k,
    (bakEntries target ds (m + 1) t c0 k).map Prod.fst =
      (List.range (min k (m + 1))).map (fun j => bakName target (t (k - j))) := by
  intro k
  induction k with
  | zero => simp [bakEntries]
  | succ k ih =>
    have hstep : bakEntries target ds (m + 1) t c0 (k + 1) =
        (bakName target (t (k + 1)), ⟨seqContent ds c0 k, t k⟩) ::
          (bakEntries target ds (m + 1) t c0 k).take m := rfl
    rw [hstep, List.map_cons, List.map_take, ih, ← List.map_take, List.take_range]
    have h2 : min m (min k (m + 1)) = min k m := by omega
    have h3 : min (k + 1) (m + 1) = min k m + 1 := by omega
    rw [h2, h3, List.range_succ_eq_map, List.map_cons, List.map_map]
    congr 1
    apply List.map_congr_left
    intro j hj
    simp [Function.comp, Nat.succ_sub_succ]

/-- C8: with retention N > 0, after the initial manifest plus N + 2
successive successful writes the backup files present are exactly the N
most recently created ones, `{name}.bak-{timestamp}` for the last N writes,
newest first; with retention 0 no backup file ever exists. The time
hypotheses say wall-clock seconds strictly increase across writes and fit
the 14-digit timestamp, and the temporary names mkstemp picks collide
neither with the manifest nor with the backup glob. -/
theorem c8_backup_rotation_keeps_n
    (N : Nat) (target : String) (tmp : Nat → String) (ds : Nat → JValue)
    (t : Nat → Nat) (c0 : String)
    (hN : 0 < N)
    (hmono : ∀ i j, i < j → j ≤ N + 2 → t i < t j)
    (hbound : ∀ i, i ≤ N + 2 → t i < 10 ^ 14)
    (htmpne : ∀ i, tmp i ≠ target)
    (htmpbak : ∀ i, strLeads (target ++ ".bak-") (tmp i) = false) :
    (((writeSeq target tmp ds N t c0 (N + 2)).filter
        (fun e => strLeads (target ++ ".bak-") e.fst)).map Prod.fst =
      (List.range N).map (fun j => bakName target (t (N + 2 - j)))) ∧
    ∀ k, (writeSeq target tmp ds 0 t c0 k).filter
        (fun e => strLeads (target ++ ".bak-") e.fst) = [] := by
  obtain ⟨m, rfl⟩ : ∃ m, N = m + 1 := ⟨N - 1, by omega⟩
  constructor
  · have hcan := writeSeq_canonical target tmp ds m t c0 (m + 1 + 2) hmono hbound
      htmpne htmpbak (m + 1 + 2) (Nat.le_refl _)
    obtain ⟨-, -, -, hshape⟩ := bakEntries_facts target ds m t c0 (m + 1 + 2) hmono hbound
      (m + 1 + 2) (Nat.le_refl _)
    have hb : ∀ e ∈ bakEntries target ds (m + 1) t c0 (m + 1 + 2),
        strLeads (target ++ ".bak-") e.fst = true := by
      intro e he
      obtain ⟨i, -, -, rfl⟩ := hshape e he
      exact bakName_lead target (t i)
    rw [hcan, filter_bak_canonical target _ _ _ hb, bakEntries_map_fst]
    have hmin : min (m + 1 + 2) (m + 1) = m + 1 := by omega
    rw [hmin]
  · intro k
    rw [writeSeq_keep0 target tmp ds t c0 htmpne k]
    simp [strLeads_bakLead_self]

/-- Witness for C8 at a concrete input: retention 1, manifest "m",
temporary name "x", identity clock. -/
theorem c8_backup_rotation_keeps_n_witness :
    0 < 1 ∧
    ((((writeSeq "m" (fun _ => "x") (fun _ => JValue.null) 1 (fun i => i) "c" (1 + 2)).filter
        (fun e => strLeads ("m" ++ ".bak-") e.fst)).map Prod.fst =
      (List.range 1).map (fun j => bakName "m" (1 + 2 - j))) ∧
    ∀ k, (writeSeq "m" (fun _ => "x") (fun _ => JValue.null) 0 (fun i => i) "c" k).filter
        (fun e => strLeads ("m" ++ ".bak-") e.fst) = []) :=
  ⟨Nat.one_pos,
    c8_backup_rotation_keeps_n 1 "m" (fun _ => "x") (fun _ => JValue.null) (fun i => i) "c"
      Nat.one_pos
      (fun i j h1 h2 => h1)
      (fun i hi => lt_of_le_of_lt hi (by norm_num))
      (fun i h => absurd h (by decide : ¬ "x" = "m"))
      (fun i => rfl)⟩

end Splunkbase
